import Mathlib

/-!
Verification of the service-gateway core: definition loader/validator,
path-template route matcher, registry reload, reverse-proxy header
handling, and the schema synthesizer.

The Go sources are embedded shallowly: Go strings become `String`,
Go slices become `List`, Go maps become association lists (`List (key × value)`)
whose iteration order is treated as arbitrary, and fallible functions
return `Except String`.  The Go standard-library string primitives used by
the sources (`strings.Split`, `strings.TrimSpace`, ...) are embedded as
structurally recursive functions on the character list so that every
definition evaluates by kernel reduction.
-/

/-- Go `strings.TrimSpace`: remove leading and trailing whitespace. -/
def trimSpace (s : String) : String :=
  String.mk (((s.data.dropWhile Char.isWhitespace).reverse.dropWhile Char.isWhitespace).reverse)

/-- Go `strings.ToUpper` (the sources only apply it to ASCII method names). -/
def toUpperStr (s : String) : String := String.mk (s.data.map Char.toUpper)

/-- Go `strings.ToLower` (the sources only apply it to ASCII location names). -/
def toLowerStr (s : String) : String := String.mk (s.data.map Char.toLower)

/-- Character-level worker for `strings.Split(s, "/")`. -/
def splitCharsOnSlash : List Char → List (List Char)
  | [] => [[]]
  | c :: rest =>
    if c = '/' then [] :: splitCharsOnSlash rest
    else match splitCharsOnSlash rest with
      | g :: gs => (c :: g) :: gs
      | [] => [[c]]

/-- Go `strings.Split(s, "/")`. -/
def splitOnSlash (s : String) : List String := (splitCharsOnSlash s.data).map String.mk

/-- Go `strings.Contains(s, string(c))` for a one-character needle. -/
def containsChar (c : Char) (s : String) : Bool := s.data.contains c

/-- Go `strings.HasPrefix(s, string(c))` for a one-character needle. -/
def startsWithChar (c : Char) (s : String) : Bool := s.data.head? == some c

/-- Go `strings.HasSuffix(s, string(c))` for a one-character needle. -/
def endsWithChar (c : Char) (s : String) : Bool := s.data.getLast? == some c

/-- Go `s[1 : len(s)-1]` on a segment of the form `{...}` (ASCII braces). -/
def dropEnds (s : String) : String := String.mk (s.data.drop 1).dropLast

/-- Go `strings.Join(xs, "/")`. -/
def joinSlash : List String → String
  | [] => ""
  | [x] => x
  | x :: xs => x ++ "/" ++ joinSlash xs

/-- Go `strings.Trim(s, "/")`: remove every leading and trailing `/`. -/
def trimSlashes (s : String) : String :=
  String.mk (((s.data.dropWhile (· == '/')).reverse.dropWhile (· == '/')).reverse)

/-- Go `strings.TrimRight(s, "/")`: remove every trailing `/`. -/
def trimTrailingSlashes (s : String) : String :=
  String.mk ((s.data.reverse.dropWhile (· == '/')).reverse)

/-- Generic tagged value tree modelling Go `any` values decoded from
configuration (the open schema fragments) and the synthesized JSON document. -/
inductive JsonValue where
  | null
  | bool (b : Bool)
  | num (n : Int)
  | str (s : String)
  | arr (items : List JsonValue)
  | obj (fields : List (String × JsonValue))

/-- One endpoint parameter (`Parameter` in the Go source). `Schema` is
`none` when the Go map is nil. -/
structure Parameter where
  Name : String
  In : String
  Required : Bool
  Description : String
  Schema : Option (List (String × JsonValue))

/-- One media-type entry of a request body (`MediaTypeDefinition`). -/
structure MediaTypeDefinition where
  Schema : Option (List (String × JsonValue))
  Example : Option JsonValue

/-- Request-body specification (`RequestBody`). `Content` models the Go
`map[string]MediaTypeDefinition`; a nil and an empty map both become `[]`. -/
structure RequestBody where
  Description : String
  Required : Bool
  Content : List (String × MediaTypeDefinition)

/-- One endpoint (`Endpoint` in the Go source). -/
structure Endpoint where
  Path : String
  Method : String
  Description : String
  OperationID : String
  Parameters : List Parameter
  RequestBody : Option RequestBody

/-- One service definition (`Service` in the Go source). -/
structure Service where
  Name : String
  Address : String
  Description : String
  Endpoints : List Endpoint
  Source : String

/-- One compiled path segment (`pathSegment` in the Go source): either a
literal token or a named parameter placeholder. -/
structure pathSegment where
  literal : String
  isParam : Bool
deriving DecidableEq, Repr

/-- Sequential fallible loop over a list, returning the first error
(the shape of every `for ... return err` loop in the Go sources). -/
def mapMExcept {alpha beta : Type} (f : alpha -> Except String beta) :
    List alpha -> Except String (List beta)
  | [] => .ok []
  | x :: xs => do
    let y <- f x
    let ys <- mapMExcept f xs
    pure (y :: ys)

/-- Parse one part between separators, mirroring the body of the loop in
`parsePathSegments` (src part_002 lines 26-42). -/
def parseSegment (path part : String) : Except String pathSegment :=
  if part = "" then
    .error ("path \"" ++ path ++ "\" contains empty segment")
  else if containsChar '{' part || containsChar '}' part then
    if startsWithChar '{' part && endsWithChar '}' part then
      let name := trimSpace (dropEnds part)
      if name = "" then
        .error ("path \"" ++ path ++ "\" contains empty parameter name")
      else
        .ok { literal := name, isParam := true }
    else
      .error ("path segment \"" ++ part ++ "\" has unmatched braces")
  else
    .ok { literal := part, isParam := false }

/-- `parsePathSegments` from src part_002 lines 13-44. -/
def parsePathSegments (path : String) : Except String (List pathSegment) :=
  if path = "" then
    .error "path cannot be empty"
  else if !startsWithChar '/' path then
    .error ("path must start with '/' (got \"" ++ path ++ "\")")
  else
    let trimmed := trimSlashes path
    if trimmed = "" then
      .ok []
    else
      mapMExcept (parseSegment path) (splitOnSlash trimmed)

/-- `extractPathParamNames` from src part_002 lines 46-58. -/
def extractPathParamNames (path : String) : Except String (List String) :=
  (parsePathSegments path).map fun segments =>
    (segments.filter (·.isParam)).map (·.literal)

/-- Compiled route (`route` in the Go source): owning service, endpoint and
compiled segments. -/
structure route where
  service : Service
  endpoint : Endpoint
  segments : List pathSegment

/-- `newRoute` from src part_002 lines 66-76. -/
def newRoute (svc : Service) (ep : Endpoint) : Except String route :=
  (parsePathSegments ep.Path).map fun segments =>
    { service := svc, endpoint := ep, segments := segments }

/-- The matching loop of `matchPath` (src part_002 lines 92-101): walk the
compiled segments and inbound parts together; a parameter segment captures the
inbound part, a literal segment must be equal to it. -/
def matchSegs : List pathSegment → List String → Option (List String)
  | [], [] => some []
  | seg :: segs, part :: parts =>
    if seg.isParam then
      (matchSegs segs parts).map (part :: ·)
    else if seg.literal = part then
      (matchSegs segs parts).map (seg.literal :: ·)
    else
      none
  | _, _ => none

/-- Final path assembly of `matchPath` (src part_002 lines 102-105). -/
def renderPath (matched : List String) : String :=
  if matched = [] then "/" else "/" ++ joinSlash matched

/-- `matchPath` from src part_002 lines 78-106; `none` models the Go
`("", false)` return. -/
def matchPath (segs : List pathSegment) (requestPath : String) : Option String :=
  let trimmed := trimSlashes requestPath
  if trimmed = "" then
    if segs = [] then some "/" else none
  else
    let parts := splitOnSlash trimmed
    if parts.length ≠ segs.length then none
    else (matchSegs segs parts).map renderPath

/-- The leading-separator enforcement of the validator (src part_000
lines 91-93): prepend `/` unless already present. -/
def withSlash (s : String) : String :=
  if startsWithChar '/' s then s else "/" ++ s

/-- The default open-ended string schema the validator synthesizes
(src part_000 lines 134 and 144). -/
def defaultSchema : List (String × JsonValue) := [("type", JsonValue.str "string")]

/-- Location resolution of the per-parameter normalization loop
(src part_000 lines 117-124): lower-case and trim the declared location,
defaulting to `path` when the name is a placeholder, else `query`. -/
def resolveIn (expected : List String) (name rawIn : String) : String :=
  let inValue := toLowerStr (trimSpace rawIn)
  if inValue = "" then (if expected.contains name then "path" else "query") else inValue

/-- Success record of the per-parameter normalization loop (src part_000
lines 111-136), built from the trimmed name and the resolved location. -/
def normalizeParamOk (expected : List String) (p : Parameter) : Parameter :=
  { Name := trimSpace p.Name
    In := resolveIn expected (trimSpace p.Name) p.In
    Required := if resolveIn expected (trimSpace p.Name) p.In = "path" then true else p.Required
    Description := trimSpace p.Description
    Schema := match p.Schema with
      | none => some defaultSchema
      | some m => some m }

/-- The per-parameter normalization including its one failure case
(src part_000 lines 113-116): an empty (trimmed) name is rejected. -/
def normalizeParam (expected : List String) (method path : String) (p : Parameter) :
    Except String Parameter :=
  if trimSpace p.Name = "" then
    .error ("endpoint " ++ method ++ " " ++ path ++ " has a parameter with an empty name")
  else
    .ok (normalizeParamOk expected p)

/-- First-occurrence deduplication; models the key set of the Go
`expectedParams` map (src part_000 lines 106-109), whose keys are unique. -/
def dedupKeys (seen : List String) : List String → List String
  | [] => []
  | x :: xs => if seen.contains x then dedupKeys seen xs else x :: dedupKeys (x :: seen) xs

/-- The body of the synthesis loop (src part_000 lines 138-147): for a
placeholder name not already covered by a path-located parameter, a
required path parameter with the default string schema.  The Go loop runs
in map iteration order; the model uses first-occurrence order of the
placeholders, one admissible iteration order of that map. -/
def synthParamFor (params : List Parameter) (n : String) : Option Parameter :=
  if params.any (fun p => p.In == "path" && p.Name == n) then none
  else some { Name := n, In := "path", Required := true, Description := "", Schema := some defaultSchema }

/-- The appended synthesized parameters (src part_000 lines 138-147). -/
def synthesizeMissing (paramsInPath : List String) (params : List Parameter) : List Parameter :=
  params ++ (dedupKeys [] paramsInPath).filterMap (synthParamFor params)

/-- Request-body normalization (src part_000 lines 149-154): trim the
description and drop the body entirely when it declares no media types. -/
def normalizeRequestBody : Option RequestBody → Option RequestBody
  | none => none
  | some r => if r.Content.isEmpty then none else some { r with Description := trimSpace r.Description }

/-- Per-endpoint normalization and validation (src part_000 lines 85-154),
for the endpoint at index `i`. -/
def normalizeEndpoint (i : Nat) (ep : Endpoint) : Except String Endpoint := do
  let path0 := trimSpace ep.Path
  if path0 = "" then
    throw s!"endpoint {i} path is required"
  let path := withSlash path0
  let method := toUpperStr (trimSpace ep.Method)
  if method = "" then
    throw ("endpoint " ++ path ++ " must define a method")
  let paramsInPath ← match extractPathParamNames path with
    | .error e => throw ("endpoint " ++ method ++ " " ++ path ++ " has invalid path: " ++ e)
    | .ok names => pure names
  let params ← mapMExcept (normalizeParam paramsInPath method path) ep.Parameters
  pure { Path := path
         Method := method
         Description := trimSpace ep.Description
         OperationID := trimSpace ep.OperationID
         Parameters := synthesizeMissing paramsInPath params
         RequestBody := normalizeRequestBody ep.RequestBody }

/-- The endpoint loop of `normalizeAndValidate` (src part_000 line 85),
carrying the index used in the empty-path error message. -/
def normalizeEndpoints (i : Nat) : List Endpoint → Except String (List Endpoint)
  | [] => .ok []
  | ep :: eps => do
    let ep' ← normalizeEndpoint i ep
    let eps' ← normalizeEndpoints (i + 1) eps
    pure (ep' :: eps')

/-- `normalizeAndValidate` from src part_000 lines 71-157. -/
def normalizeAndValidate (s : Service) : Except String Service := do
  let name := trimSpace s.Name
  if name = "" then
    throw "serviceName is required"
  let address0 := trimSpace s.Address
  if address0 = "" then
    throw "serviceAddress is required"
  let address := trimTrailingSlashes address0
  if s.Endpoints.isEmpty then
    throw "service must define at least one endpoint"
  let eps ← normalizeEndpoints 0 s.Endpoints
  pure { Name := name
         Address := address
         Description := trimSpace s.Description
         Endpoints := eps
         Source := s.Source }

/-- Generic association-list lookup, modelling a read of a Go map
(`m[k]` returning the first — unique, since map keys are unique — entry). -/
def keyFind {α : Type} : List (String × α) → String → Option α
  | [], _ => none
  | kv :: rest, q => if kv.1 = q then some kv.2 else keyFind rest q

/-- Generic association-list update, modelling a Go map assignment
`m[k] = v`: replace the entry when the key is present, append otherwise. -/
def setKey {α : Type} : List (String × α) → String → α → List (String × α)
  | [], k, v => [(k, v)]
  | kv :: rest, k, v => if kv.1 = k then (k, v) :: rest else kv :: setKey rest k v

/-- Generic association-list removal, modelling Go `delete(m, k)`. -/
def eraseKey {α : Type} (l : List (String × α)) (k : String) : List (String × α) :=
  l.filter (fun kv => !(kv.1 == k))

/-- The fixed hop-by-hop header list (src part_001 lines 318-327). -/
def hopHeaders : List String :=
  ["Connection", "Keep-Alive", "Proxy-Authenticate", "Proxy-Authorization",
   "Te", "Trailer", "Transfer-Encoding", "Upgrade"]

/-- Valid MIME header token bytes, as in Go `net/textproto`
(letters, digits, and the characters of `!#$%&'*+-.^_|~` and backquote). -/
def isTokenChar (c : Char) : Bool :=
  c.isAlpha || c.isDigit || containsChar c "!#$%&*+-.^_|~" || c.toNat = 39 || c.toNat = 96

/-- Case canonicalization worker of Go `textproto.CanonicalMIMEHeaderKey`:
upper-case the first letter and every letter following a dash, lower-case
the rest. -/
def canonChars : Bool → List Char → List Char
  | _, [] => []
  | up, c :: cs => (if up then c.toUpper else c.toLower) :: canonChars (c = '-') cs

/-- Go `http.CanonicalHeaderKey`: canonicalize the case of a valid header
key; keys with invalid bytes are returned unchanged. -/
def canonicalHeaderKey (k : String) : String :=
  if k.data.all isTokenChar then String.mk (canonChars true k.data) else k

/-- `isHopHeader` from src part_001 lines 357-365: case-insensitive
membership in `hopHeaders` via canonicalization of both sides. -/
def isHopHeader (name : String) : Bool :=
  hopHeaders.any (fun h => canonicalHeaderKey h = canonicalHeaderKey name)

/-- An HTTP header collection (`http.Header`): a map from canonical header
key to the ordered list of values. -/
def Headers : Type := List (String × List String)

/-- Go `http.Header.Get`: first value of the canonicalized key, or `""`. -/
def hGet (h : Headers) (k : String) : String :=
  match keyFind h (canonicalHeaderKey k) with
  | some (v :: _) => v
  | _ => ""

/-- Go `http.Header.Set`: replace the canonicalized key with one value. -/
def hSet (h : Headers) (k v : String) : Headers :=
  setKey h (canonicalHeaderKey k) [v]

/-- `copyHeaders` from src part_001 lines 329-341 applied to the empty
outbound header map that `http.NewRequestWithContext` creates: every inbound
entry is carried over except the hop-by-hop ones. -/
def copyHeaders (src : Headers) : Headers :=
  src.filter (fun kv => !isHopHeader kv.1)

/-- The outbound header assembly of `ProxyRequest` (src part_001 lines
229-241): copy the non-hop headers, then set `X-Forwarded-Host` to the
inbound host and `X-Forwarded-Proto` to the propagated or derived protocol. -/
def forwardHeaders (inbound : Headers) (host : String) (tls : Bool) : Headers :=
  let h := copyHeaders inbound
  let h := hSet h "X-Forwarded-Host" host
  let proto := hGet inbound "X-Forwarded-Proto"
  hSet h "X-Forwarded-Proto" (if proto ≠ "" then proto else if tls then "https" else "http")

/-- The registry state of the `Gateway` (src part_001 lines 22-29):
services keyed by name, source-path-to-name mapping, and the method-tagged
route list (the Go `map[string][]*route` flattened; a method's bucket is
the sublist tagged with it, in insertion order). -/
structure GatewayState where
  services : List (String × Service)
  fileToService : List (String × String)
  routes : List (String × route)

/-- `rebuildRoutesLocked` from src part_001 lines 163-177: recompute every
route from the full service set, skipping endpoints whose template does not
compile, bucketing under the upper-cased method. -/
def rebuildRoutesLocked (services : List (String × Service)) : List (String × route) :=
  services.flatMap fun kv =>
    kv.2.Endpoints.filterMap fun ep =>
      match newRoute kv.2 ep with
      | .ok rt => some (toUpperStr ep.Method, rt)
      | .error _ => none

/-- The registry mutation of `loadService` (src part_001 lines 136-144),
given the already-validated service parsed from `path`: drop a stale name
when the source's declared name changed, insert/replace by name, update the
source mapping, rebuild the route index. -/
def loadService (g : GatewayState) (path : String) (svc : Service) : GatewayState :=
  let services :=
    match keyFind g.fileToService path with
    | some oldName => if oldName ≠ svc.Name then eraseKey g.services oldName else g.services
    | none => g.services
  let services := setKey services svc.Name svc
  { services := services
    fileToService := setKey g.fileToService path svc.Name
    routes := rebuildRoutesLocked services }

/-- The method bucket of the route index (a read of the Go
`map[string][]*route`). -/
def bucket (routes : List (String × route)) (m : String) : List route :=
  (routes.filter (fun kv => kv.1 == m)).map (·.2)

/-- The candidate scan of `matchRoute` (src part_001 lines 207-211): first
route whose `matchPath` succeeds wins. -/
def firstMatch : List route → String → Option (route × String)
  | [], _ => none
  | rt :: rest, p =>
    match matchPath rt.segments p with
    | some targetPath => some (rt, targetPath)
    | none => firstMatch rest p

/-- `matchRoute` from src part_001 lines 198-213: pick the bucket of the
upper-cased method, fall back to the GET bucket for HEAD when empty, scan in
order; `none` models the Go `(nil, "")` return surfaced as
`ErrNoMatchingRoute`. -/
def matchRoute (routes : List (String × route)) (method requestPath : String) :
    Option (route × String) :=
  let m := toUpperStr method
  let candidates := bucket routes m
  let candidates := if candidates.isEmpty && m == "HEAD" then bucket routes "GET" else candidates
  firstMatch candidates requestPath

/-- Sort an association list by key in lexicographic order (the spec's
"visited in lexicographic name order"). -/
def sortByKey {α : Type} (l : List (String × α)) : List (String × α) :=
  List.insertionSort (fun a b => a.1 ≤ b.1) l

/-- Go `strings.ReplaceAll(s, string(a), string(b))` for a one-character
needle and a one-character replacement. -/
def replaceChar (a b : Char) (l : List Char) : List Char :=
  l.map fun c => if c = a then b else c

/-- Go `strings.ReplaceAll(s, string(a), "")` for a one-character needle. -/
def removeChar (a : Char) (l : List Char) : List Char :=
  l.filter fun c => !(c == a)

/-- Go `strings.ReplaceAll(s, "__", "_")`: one left-to-right pass over
non-overlapping occurrences, so `"___"` becomes `"__"`. -/
def collapseDoubleUnderscore : List Char → List Char
  | '_' :: '_' :: rest => '_' :: collapseDoubleUnderscore rest
  | c :: rest => c :: collapseDoubleUnderscore rest
  | [] => []

/-- Go `strings.Trim(s, "_")`: strip leading and trailing underscores. -/
def trimUnderscores (l : List Char) : List Char :=
  ((l.dropWhile (· == '_')).reverse.dropWhile (· == '_')).reverse

/-- `generateOperationID` (src examples/weather_service/main.go lines
384-399): replace `/`, `-`, space and `.` by `_`, delete `{` and `}`,
collapse `__` in a single pass, trim underscores, default to `root`, and
prefix the service name and method. -/
def generateOperationID (serviceName method path : String) : String :=
  let sanitized := trimUnderscores (collapseDoubleUnderscore
    (replaceChar '.' '_' (replaceChar ' ' '_' (replaceChar '-' '_'
      (removeChar '}' (removeChar '{' (replaceChar '/' '_' path.data)))))))
  serviceName ++ "_" ++ method ++ "_" ++
    (if sanitized.isEmpty then "root" else String.mk sanitized)

/-- Go `strings.Join(parts, "\n\n")`. -/
def joinBlankLine : List String → String
  | [] => ""
  | [x] => x
  | x :: xs => x ++ "\n\n" ++ joinBlankLine xs

/-- `buildOperationDescription` (src examples/weather_service/main.go lines
311-321): the endpoint description when present, the service description
when present (prefixed `Service description:`), and always the proxy-target
sentence, joined by blank lines. -/
def buildOperationDescription (svc : Service) (ep : Endpoint) : String :=
  joinBlankLine
    ((if ep.Description ≠ "" then [ep.Description] else [])
      ++ (if svc.Description ≠ ""
          then ["Service description: " ++ svc.Description] else [])
      ++ ["Requests are proxied to " ++ svc.Address ++ ep.Path])

/-- One parameter item of `convertParameters` (src
examples/weather_service/main.go lines 336-348): name, location and
required flag always, description when non-empty, schema when the Go map
is non-nil and non-empty. -/
def parameterItem (p : Parameter) : JsonValue :=
  .obj ([("name", JsonValue.str p.Name), ("in", JsonValue.str p.In),
         ("required", JsonValue.bool p.Required)]
    ++ (if p.Description ≠ "" then [("description", JsonValue.str p.Description)] else [])
    ++ (match p.Schema with
        | some (f :: fs) => [("schema", JsonValue.obj (f :: fs))]
        | _ => []))

/-- `convertParameters` (src examples/weather_service/main.go lines
323-351): a copy of the parameters sorted by location and then name
(`sort.Slice` leaves ties in unspecified order; the stable insertion sort
is one admissible outcome), each rendered by `parameterItem`. -/
def convertParameters (params : List Parameter) : List JsonValue :=
  if params.isEmpty then []
  else (List.insertionSort
    (fun a b => a.In < b.In ∨ (a.In = b.In ∧ a.Name ≤ b.Name)) params).map parameterItem

/-- One media-type entry of `convertRequestBody` (src
examples/weather_service/main.go lines 358-369): skipped entirely when
both the schema and the example are nil, otherwise an object carrying
whichever of the two is present. -/
def mediaEntry (kv : String × MediaTypeDefinition) : Option (String × JsonValue) :=
  match kv.2.Schema, kv.2.Example with
  | none, none => none
  | some s, none => some (kv.1, .obj [("schema", JsonValue.obj s)])
  | none, some e => some (kv.1, .obj [("example", e)])
  | some s, some e => some (kv.1, .obj [("schema", JsonValue.obj s), ("example", e)])

/-- `convertRequestBody` (src examples/weather_service/main.go lines
353-382): nil in, nil out; surviving media-type entries form the content
object; when every entry was skipped the whole body is omitted; description
and required are added when non-trivial. -/
def convertRequestBody : Option RequestBody → Option JsonValue
  | none => none
  | some rb =>
    if (rb.Content.filterMap mediaEntry).isEmpty then none
    else some (.obj ([("content", JsonValue.obj (rb.Content.filterMap mediaEntry))]
      ++ (if rb.Description ≠ "" then [("description", JsonValue.str rb.Description)] else [])
      ++ (if rb.Required then [("required", JsonValue.bool true)] else [])))

/-- One operation object (src examples/weather_service/main.go lines
277-304), for `method` the already lower-cased endpoint method: summary
(the description, or `METHOD path`), generated description, the owning
service as tag and vendor extensions, the fixed responses, the explicit or
generated operation id, parameters only when declared, request body only
when `convertRequestBody` yields one. -/
def buildOperation (svc : Service) (ep : Endpoint) (method : String) : JsonValue :=
  .obj ([("summary", JsonValue.str
            (if ep.Description = "" then toUpperStr method ++ " " ++ ep.Path
             else ep.Description)),
         ("description", JsonValue.str (buildOperationDescription svc ep)),
         ("tags", JsonValue.arr [JsonValue.str svc.Name]),
         ("responses", JsonValue.obj
            [("200", JsonValue.obj [("description", JsonValue.str "Successful response.")]),
             ("default", JsonValue.obj [("description", JsonValue.str "Unexpected error.")])]),
         ("x-service-name", JsonValue.str svc.Name),
         ("x-service-address", JsonValue.str svc.Address),
         ("operationId", JsonValue.str
            (if ep.OperationID = "" then generateOperationID svc.Name method ep.Path
             else ep.OperationID))]
    ++ (if ep.Parameters.isEmpty then []
        else [("parameters", JsonValue.arr (convertParameters ep.Parameters))])
    ++ (match convertRequestBody ep.RequestBody with
        | some body => [("requestBody", body)]
        | none => []))

/-- The visit order of the path loop (src examples/weather_service/main.go
lines 258-306): services in sorted name order, each service's endpoints in
declaration order. -/
def endpointSeq (svcs : List Service) : List (Service × Endpoint) :=
  svcs.flatMap fun svc => svc.Endpoints.map fun ep => (svc, ep)

/-- One step of the path loop (src examples/weather_service/main.go lines
267-305): skip an endpoint whose lower-cased method is empty; otherwise
fetch the path item (creating it when absent) and store the operation under
the lower-cased method, overwriting any earlier one. -/
def addEndpoint (paths : List (String × List (String × JsonValue)))
    (entry : Service × Endpoint) : List (String × List (String × JsonValue)) :=
  if toLowerStr entry.2.Method = "" then paths
  else setKey paths entry.2.Path
    (setKey ((keyFind paths entry.2.Path).getD []) (toLowerStr entry.2.Method)
      (buildOperation entry.1 entry.2 (toLowerStr entry.2.Method)))

/-- The paths object: the path loop folded over the visit order, starting
from the empty `paths` map. -/
def buildPaths (svcs : List Service) : List (String × List (String × JsonValue)) :=
  (endpointSeq svcs).foldl addEndpoint []

/-- The tags array (src examples/weather_service/main.go lines 239-255):
one tag per service in sorted name order, with the description only when
non-empty. -/
def buildTags (svcs : List Service) : List JsonValue :=
  svcs.map fun svc =>
    .obj ([("name", JsonValue.str svc.Name)]
      ++ (if svc.Description ≠ "" then [("description", JsonValue.str svc.Description)] else []))

/-- The document of `BuildOpenAPISpec` (src examples/weather_service/main.go
lines 222-307) before serialization: the fixed `openapi`/`info`/`servers`
fields, the synthesized paths, and the tags exactly when the registry is
non-empty.  The registry map's iteration order is abstracted by an
association list; both loops sort the service names first. -/
def buildSpec (baseURL : String) (services : List (String × Service)) : JsonValue :=
  .obj ([("openapi", JsonValue.str "3.1.0"),
         ("info", JsonValue.obj
            [("title", JsonValue.str "Local ChatGPT Gateway"),
             ("version", JsonValue.str "1.0.0"),
             ("description", JsonValue.str
               "Auto-generated OpenAPI schema for locally discovered MCP servers.")]),
         ("servers", JsonValue.arr [JsonValue.obj [("url", JsonValue.str baseURL)]]),
         ("paths", JsonValue.obj
            ((buildPaths ((sortByKey services).map Prod.snd)).map
              fun kv => (kv.1, JsonValue.obj kv.2)))]
    ++ (if 0 < services.length
        then [("tags", JsonValue.arr (buildTags ((sortByKey services).map Prod.snd)))]
        else []))

mutual

/-- Go `encoding/json` serializes every map in ascending key order; this
sorts each object's fields, recursively. -/
def sortKeysDeep : JsonValue → JsonValue
  | .obj fields => .obj (sortByKey (sortFieldsDeep fields))
  | .arr items => .arr (sortItemsDeep items)
  | v => v

/-- Deep key sort of an object's fields. -/
def sortFieldsDeep : List (String × JsonValue) → List (String × JsonValue)
  | [] => []
  | (k, v) :: fs => (k, sortKeysDeep v) :: sortFieldsDeep fs

/-- Deep key sort of an array's items. -/
def sortItemsDeep : List JsonValue → List JsonValue
  | [] => []
  | v :: vs => sortKeysDeep v :: sortItemsDeep vs

end

/-- A lower-case hexadecimal digit. -/
def hexDigit (n : Nat) : Char :=
  if n < 10 then Char.ofNat (48 + n) else Char.ofNat (87 + n)

/-- One character of a JSON string literal as Go `encoding/json` emits it:
the named escapes, `\u00xx` for other control characters and for the
HTML-escaped `<`, `>` and `&`, every other character verbatim. -/
def escapeChar (c : Char) : String :=
  if c = '"' then "\\\""
  else if c = '\\' then "\\\\"
  else if c = '\n' then "\\n"
  else if c = '\r' then "\\r"
  else if c = '\t' then "\\t"
  else if c.toNat < 32 ∨ c = '<' ∨ c = '>' ∨ c = '&' then
    "\\u00" ++ String.mk [hexDigit (c.toNat / 16), hexDigit (c.toNat % 16)]
  else String.mk [c]

/-- A JSON string literal. -/
def renderString (s : String) : String :=
  "\"" ++ String.mk (s.data.flatMap fun c => (escapeChar c).data) ++ "\""

/-- The indentation of `json.MarshalIndent(v, "", "  ")` at a nesting
depth: two spaces per level. -/
def indentN (depth : Nat) : String := String.mk (List.replicate (2 * depth) ' ')

mutual

/-- The `json.MarshalIndent` layout of an (already key-sorted) value:
empty composites on one line, otherwise one element per line at the next
indentation depth. -/
def renderJson (depth : Nat) : JsonValue → String
  | .null => "null"
  | .bool b => if b then "true" else "false"
  | .num n => toString n
  | .str s => renderString s
  | .arr [] => "[]"
  | .arr (v :: vs) =>
    "[\n" ++ renderItems (depth + 1) v vs ++ "\n" ++ indentN depth ++ "]"
  | .obj [] => "\x7b\x7d"
  | .obj ((k, v) :: fs) =>
    "\x7b\n" ++ renderFields (depth + 1) k v fs ++ "\n" ++ indentN depth ++ "\x7d"
termination_by v => sizeOf v

/-- The comma-separated, indented lines of an array's items. -/
def renderItems (depth : Nat) (v : JsonValue) : List JsonValue → String
  | [] => indentN depth ++ renderJson depth v
  | w :: ws => indentN depth ++ renderJson depth v ++ ",\n" ++ renderItems depth w ws
termination_by l => sizeOf v + sizeOf l

/-- The comma-separated, indented lines of an object's fields. -/
def renderFields (depth : Nat) (k : String) (v : JsonValue) :
    List (String × JsonValue) → String
  | [] => indentN depth ++ renderString k ++ ": " ++ renderJson depth v
  | (k₂, v₂) :: gs =>
    indentN depth ++ renderString k ++ ": " ++ renderJson depth v ++ ",\n"
      ++ renderFields depth k₂ v₂ gs
termination_by l => sizeOf v + sizeOf l

end

/-- Go `json.MarshalIndent(v, "", "  ")`: maps in sorted key order,
two-space indentation. -/
def marshalIndent (v : JsonValue) : String := renderJson 0 (sortKeysDeep v)

/-- `BuildOpenAPISpec` (src examples/weather_service/main.go lines
222-309): the document built from the registry snapshot, serialized with
`json.MarshalIndent`. -/
def BuildOpenAPISpec (baseURL : String) (services : List (String × Service)) : String :=
  marshalIndent (buildSpec baseURL services)

/-- The inbound path segments as the spec describes them: trim leading and
trailing separators, split on the separator; a path that trims to nothing
has zero segments. -/
def inboundParts (p : String) : List String :=
  if trimSlashes p = "" then [] else splitOnSlash (trimSlashes p)

/-- Position-by-position substitution described by the spec: a named
segment is replaced by the matched inbound part, a literal passes through. -/
def substSegments : List pathSegment → List String → List String :=
  List.zipWith (fun s pt => if s.isParam then pt else s.literal)

/-- Per-position acceptance as the code implements it: a named segment
accepts anything, a literal must be equal (case-sensitive). -/
def segOk (sp : pathSegment × String) : Bool :=
  sp.1.isParam || sp.1.literal == sp.2

/-- Matching condition as the code implements it: equal segment counts and
per-position acceptance, with no constraint on a named segment's value. -/
def amendedMatchCond (segs : List pathSegment) (p : String) : Bool :=
  (inboundParts p).length == segs.length && (segs.zip (inboundParts p)).all segOk

/-- Per-position acceptance as claim C1 words it: a named segment requires
a non-empty inbound part. -/
def claimSegOk (sp : pathSegment × String) : Bool :=
  if sp.1.isParam then sp.2 != "" else sp.1.literal == sp.2

/-- Matching condition exactly as claim C1 words it. -/
def claimMatchCond (segs : List pathSegment) (p : String) : Bool :=
  (inboundParts p).length == segs.length && (segs.zip (inboundParts p)).all claimSegOk

/-- The segment walk returns the substituted parts exactly when every
position accepts, provided the lengths agree. -/
theorem matchSegs_eq : ∀ (segs : List pathSegment) (parts : List String),
    segs.length = parts.length →
    matchSegs segs parts =
      if (segs.zip parts).all segOk then some (substSegments segs parts) else none
  | [], [], _ => rfl
  | seg :: segs, part :: parts, h => by
    have ih := matchSegs_eq segs parts (by simpa using h)
    by_cases hp : seg.isParam
    · simp only [matchSegs, hp, if_pos, ih, List.zip_cons_cons, List.all_cons, segOk,
        Bool.true_or, Bool.true_and, substSegments, List.zipWith_cons_cons]
      by_cases hall : ((segs.zip parts).all segOk) = true
      · simp [hall, hp]
      · simp [hall]
    · by_cases hlit : seg.literal = part
      · simp only [matchSegs, hp, if_neg, Bool.false_eq_true, not_false_eq_true, hlit, if_pos, ih,
          List.zip_cons_cons, List.all_cons, segOk, substSegments, List.zipWith_cons_cons]
        by_cases hall : ((segs.zip parts).all segOk) = true
        · simp [hall, hp, hlit]
        · simp [hall]
      · simp [matchSegs, hp, hlit, List.zip_cons_cons, segOk]
  | [], _ :: _, h => by simp at h
  | _ :: _, [], h => by simp at h

/-- C1 (amended): for every compiled route and inbound path, `matchPath`
succeeds exactly when, after trimming leading/trailing separators and
splitting on the separator, the inbound segment count equals the route's
segment count and every literal segment equals the corresponding inbound
segment case-sensitively, a named segment accepting any inbound segment
(including an empty one arising from consecutive separators); on success
the forwarding path substitutes matched values position-by-position.  A
zero-segment route matches only an inbound path that trims to zero
segments. -/
theorem c1_matchPath_amended (segs : List pathSegment) (p : String) :
    matchPath segs p =
      if amendedMatchCond segs p then
        some (renderPath (substSegments segs (inboundParts p)))
      else none := by
  unfold matchPath amendedMatchCond inboundParts
  by_cases ht : trimSlashes p = ""
  · simp only [ht, if_pos]
    cases segs with
    | nil => simp [renderPath, substSegments]
    | cons s ss => simp
  · simp only [ht, if_neg, Bool.false_eq_true, not_false_eq_true]
    by_cases hlen : (splitOnSlash (trimSlashes p)).length = segs.length
    · have h := matchSegs_eq segs (splitOnSlash (trimSlashes p)) hlen.symm
      simp only [hlen, ne_eq, not_true_eq_false, if_neg, if_pos, h, beq_iff_eq,
        not_false_eq_true]
      by_cases hall : ((segs.zip (splitOnSlash (trimSlashes p))).all segOk) = true
      · simp [hall]
      · simp [hall]
    · simp [hlen, Ne.symm hlen]

/-- C1 (counterexample): the route compiled from template `/a/{p}/b`
matches the inbound path `/a//b` — whose middle inbound segment is empty —
and forwards to `/a//b`, although the claim's matching condition (named
segments accept only non-empty values) rejects this input. -/
theorem c1_counterexample :
    parsePathSegments "/a/\x7bp\x7d/b" =
      .ok [⟨"a", false⟩, ⟨"p", true⟩, ⟨"b", false⟩] ∧
    matchPath [⟨"a", false⟩, ⟨"p", true⟩, ⟨"b", false⟩] "/a//b" = some "/a//b" ∧
    claimMatchCond [⟨"a", false⟩, ⟨"p", true⟩, ⟨"b", false⟩] "/a//b" = false :=
  ⟨rfl, rfl, rfl⟩

/-- The candidate scan returns `none` exactly when every candidate fails. -/
theorem firstMatch_eq_none (p : String) : ∀ (l : List route),
    firstMatch l p = none ↔ ∀ rt ∈ l, matchPath rt.segments p = none
  | [] => by simp [firstMatch]
  | rt :: rest => by
    cases h : matchPath rt.segments p with
    | some tp => simp [firstMatch, h]
    | none =>
      simp only [firstMatch, h, List.mem_cons]
      constructor
      · intro hrest r hr
        rcases hr with rfl | hr
        · exact h
        · exact (firstMatch_eq_none p rest).mp hrest r hr
      · intro hall
        exact (firstMatch_eq_none p rest).mpr fun r hr => hall r (Or.inr hr)

/-- The candidate scan returns a route exactly when it is the first
candidate in order whose `matchPath` succeeds. -/
theorem firstMatch_eq_some (p : String) (rt : route) (fp : String) : ∀ (l : List route),
    firstMatch l p = some (rt, fp) ↔
      ∃ pre post, l = pre ++ rt :: post ∧
        (∀ r ∈ pre, matchPath r.segments p = none) ∧
        matchPath rt.segments p = some fp
  | [] => by
    simp only [firstMatch]
    constructor
    · intro h; cases h
    · rintro ⟨pre, post, h, -, -⟩
      exact absurd h (by simp)
  | hd :: rest => by
    cases h : matchPath hd.segments p with
    | some tp =>
      simp only [firstMatch, h]
      constructor
      · intro he
        have : hd = rt ∧ tp = fp := by
          constructor <;> · injection he with he'; cases he'; rfl
        rcases this with ⟨rfl, rfl⟩
        exact ⟨[], rest, rfl, by simp, h⟩
      · rintro ⟨pre, post, hl, hpre, hrt⟩
        cases pre with
        | nil =>
          simp only [List.nil_append, List.cons.injEq] at hl
          rcases hl with ⟨rfl, rfl⟩
          rw [h] at hrt
          injection hrt with hrt'
          rw [hrt']
        | cons q qs =>
          simp only [List.cons_append, List.cons.injEq] at hl
          rcases hl with ⟨rfl, -⟩
          have := hpre hd (by simp)
          rw [h] at this
          cases this
    | none =>
      simp only [firstMatch, h]
      rw [firstMatch_eq_some p rt fp rest]
      constructor
      · rintro ⟨pre, post, rfl, hpre, hrt⟩
        exact ⟨hd :: pre, post, rfl, by
          intro r hr
          rcases List.mem_cons.mp hr with rfl | hr
          · exact h
          · exact hpre r hr, hrt⟩
      · rintro ⟨pre, post, hl, hpre, hrt⟩
        cases pre with
        | nil =>
          simp only [List.nil_append, List.cons.injEq] at hl
          rcases hl with ⟨rfl, rfl⟩
          rw [h] at hrt
          cases hrt
        | cons q qs =>
          simp only [List.cons_append, List.cons.injEq] at hl
          rcases hl with ⟨rfl, rfl⟩
          exact ⟨qs, post, rfl, fun r hr => hpre r (by simp [hr]), hrt⟩

/-- C6: `matchRoute` consults the bucket of the upper-cased method, falls
back to the GET bucket when that bucket is empty and the method is `HEAD`,
returns the first candidate in bucket order whose `matchPath` succeeds
together with its forwarding path (no specificity ranking), and returns the
no-match outcome (`nil` route, surfaced as `ErrNoMatchingRoute`) exactly
when every candidate fails. -/
theorem c6_matchRoute_first_in_bucket (routes : List (String × route)) (method p : String) :
    (matchRoute routes method p = none ↔
      ∀ rt ∈ (if (bucket routes (toUpperStr method)).isEmpty && toUpperStr method == "HEAD"
              then bucket routes "GET" else bucket routes (toUpperStr method)),
        matchPath rt.segments p = none) ∧
    (∀ rt fp, matchRoute routes method p = some (rt, fp) ↔
      ∃ pre post,
        (if (bucket routes (toUpperStr method)).isEmpty && toUpperStr method == "HEAD"
         then bucket routes "GET" else bucket routes (toUpperStr method)) = pre ++ rt :: post ∧
        (∀ r ∈ pre, matchPath r.segments p = none) ∧
        matchPath rt.segments p = some fp) := by
  constructor
  · exact firstMatch_eq_none p _
  · intro rt fp
    exact firstMatch_eq_some p rt fp _

/-- Concrete endpoint used by the evaluation witnesses. -/
def epX : Endpoint :=
  { Path := "/x", Method := "GET", Description := "", OperationID := "",
    Parameters := [], RequestBody := none }

/-- Concrete service used by the evaluation witnesses. -/
def svcX : Service :=
  { Name := "alpha", Address := "http://localhost:9001", Description := "",
    Endpoints := [epX], Source := "alpha.yaml" }

/-- Concrete compiled route used by the evaluation witnesses. -/
def rtX : route := { service := svcX, endpoint := epX, segments := [⟨"x", false⟩] }

/-- C6 (witness): a `HEAD` request falls back to the GET bucket and is
served by its first matching route. -/
theorem c6_matchRoute_first_in_bucket_witness :
    matchRoute [("GET", rtX)] "head" "/x" = some (rtX, "/x") :=
  ((c6_matchRoute_first_in_bucket [("GET", rtX)] "head" "/x").2 rtX "/x").mpr
    ⟨[], [], rfl, by simp, rfl⟩

/-- Lookup in a list filtered by a key predicate. -/
theorem keyFind_filterKey {α : Type} (q : String → Bool) (k : String) : ∀ (l : List (String × α)),
    keyFind (l.filter fun kv => q kv.1) k = if q k then keyFind l k else none
  | [] => by simp [keyFind]
  | (k₀, v₀) :: rest => by
    by_cases hq : q k₀
    · by_cases hk : k₀ = k
      · subst hk
        simp [keyFind, hq, keyFind_filterKey q k₀ rest]
      · simp [keyFind, hq, hk, keyFind_filterKey q k rest]
    · by_cases hk : k₀ = k
      · subst hk
        simp [keyFind, hq, keyFind_filterKey q k₀ rest]
      · simp [keyFind, hq, hk, keyFind_filterKey q k rest]

/-- Lookup after a map assignment. -/
theorem keyFind_setKey {α : Type} (k : String) (v : α) (q : String) : ∀ (l : List (String × α)),
    keyFind (setKey l k v) q = if q = k then some v else keyFind l q
  | [] => by
    by_cases h : q = k
    · subst h; simp [setKey, keyFind]
    · have h' : ¬(k = q) := fun e => h e.symm
      simp [setKey, keyFind, h, h']
  | (k₀, v₀) :: rest => by
    by_cases h0 : k₀ = k
    · subst h0
      by_cases h : q = k₀
      · subst h; simp [setKey, keyFind]
      · have h' : ¬(k₀ = q) := fun e => h e.symm
        simp [setKey, keyFind, h, h']
    · by_cases h : k₀ = q
      · subst h
        have h' : ¬(k₀ = k) := h0
        simp [setKey, keyFind, h0, h']
      · simp [setKey, keyFind, h0, h, keyFind_setKey k v q rest]

/-- C3: the outbound headers of a forwarded request are exactly the inbound
headers minus the hop-by-hop set (compared case-insensitively), plus
`X-Forwarded-Host` set to the inbound host, and `X-Forwarded-Proto` equal
to the inbound `X-Forwarded-Proto` when present, else `https` when the
inbound transport was TLS, else `http`. -/
theorem c3_forwarded_headers (inbound : Headers) (host : String) (tls : Bool) (k : String) :
    (keyFind (forwardHeaders inbound host tls) "X-Forwarded-Host" = some [host]) ∧
    (keyFind (forwardHeaders inbound host tls) "X-Forwarded-Proto" =
      some [if hGet inbound "X-Forwarded-Proto" ≠ "" then hGet inbound "X-Forwarded-Proto"
            else if tls then "https" else "http"]) ∧
    (k ≠ "X-Forwarded-Host" → k ≠ "X-Forwarded-Proto" → isHopHeader k = true →
      keyFind (forwardHeaders inbound host tls) k = none) ∧
    (k ≠ "X-Forwarded-Host" → k ≠ "X-Forwarded-Proto" → isHopHeader k = false →
      keyFind (forwardHeaders inbound host tls) k = keyFind inbound k) := by
  have hXFH : canonicalHeaderKey "X-Forwarded-Host" = "X-Forwarded-Host" := rfl
  have hXFP : canonicalHeaderKey "X-Forwarded-Proto" = "X-Forwarded-Proto" := rfl
  have hne : ("X-Forwarded-Host" : String) ≠ "X-Forwarded-Proto" := by decide
  unfold forwardHeaders hSet copyHeaders
  rw [hXFH, hXFP]
  refine ⟨?_, ?_, ?_, ?_⟩
  · rw [keyFind_setKey, if_neg hne, keyFind_setKey, if_pos rfl]
  · rw [keyFind_setKey, if_pos rfl]
  · intro h1 h2 hhop
    rw [keyFind_setKey, if_neg h2, keyFind_setKey, if_neg h1,
      keyFind_filterKey (fun s => !isHopHeader s) k inbound, hhop]
    simp
  · intro h1 h2 hhop
    rw [keyFind_setKey, if_neg h2, keyFind_setKey, if_neg h1,
      keyFind_filterKey (fun s => !isHopHeader s) k inbound, hhop]
    simp

/-- Concrete inbound headers for the C3 witness: the spec's example request
`{Connection: keep-alive, X-Custom: 1}`. -/
def exInbound : Headers := [("Connection", ["keep-alive"]), ("X-Custom", ["1"])]

/-- C3 (witness): the example request is forwarded with no `Connection`
header, an intact `X-Custom` header, and the derived forwarding headers. -/
theorem c3_forwarded_headers_witness :
    keyFind (forwardHeaders exInbound "gw.example" false) "Connection" = none ∧
    keyFind (forwardHeaders exInbound "gw.example" false) "X-Custom" = some ["1"] ∧
    keyFind (forwardHeaders exInbound "gw.example" false) "X-Forwarded-Host" = some ["gw.example"] ∧
    keyFind (forwardHeaders exInbound "gw.example" false) "X-Forwarded-Proto" = some ["http"] := by
  refine ⟨?_, ?_, ?_, ?_⟩
  · exact (c3_forwarded_headers exInbound "gw.example" false "Connection").2.2.1
      (by decide) (by decide) (by decide)
  · exact ((c3_forwarded_headers exInbound "gw.example" false "X-Custom").2.2.2
      (by decide) (by decide) (by decide)).trans rfl
  · exact (c3_forwarded_headers exInbound "gw.example" false "X-Custom").1
  · exact ((c3_forwarded_headers exInbound "gw.example" false "X-Custom").2.1).trans (by decide)

/-- Lookup after a map key deletion. -/
theorem keyFind_eraseKey {α : Type} (l : List (String × α)) (k q : String) :
    keyFind (eraseKey l k) q = if q = k then none else keyFind l q := by
  unfold eraseKey
  rw [keyFind_filterKey (fun s => !(s == k)) q l]
  by_cases h : q = k <;> simp [h]

/-- A member of an updated map is an old member or the new entry. -/
theorem mem_setKey {α : Type} (k : String) (v : α) (x : String × α) : ∀ (l : List (String × α)),
    x ∈ setKey l k v → x ∈ l ∨ x = (k, v)
  | [], h => by simpa [setKey] using h
  | kv :: rest, h => by
    by_cases h0 : kv.1 = k
    · rw [setKey] at h
      simp only [h0, if_pos] at h
      rcases List.mem_cons.mp h with rfl | h
      · exact Or.inr rfl
      · exact Or.inl (List.mem_cons.mpr (Or.inr h))
    · rw [setKey] at h
      simp only [h0, if_neg, Bool.false_eq_true, not_false_eq_true] at h
      rcases List.mem_cons.mp h with rfl | h
      · exact Or.inl (List.mem_cons.mpr (Or.inl rfl))
      · rcases mem_setKey k v x rest h with h | h
        · exact Or.inl (List.mem_cons.mpr (Or.inr h))
        · exact Or.inr h

/-- Every rebuilt route points back to a service stored in the registry. -/
theorem mem_rebuildRoutes (e : String × route) (svcs : List (String × Service))
    (h : e ∈ rebuildRoutesLocked svcs) : ∃ kv ∈ svcs, e.2.service = kv.2 := by
  unfold rebuildRoutesLocked at h
  rw [List.mem_flatMap] at h
  obtain ⟨kv, hkv, he⟩ := h
  rw [List.mem_filterMap] at he
  obtain ⟨ep, _, hmk⟩ := he
  refine ⟨kv, hkv, ?_⟩
  cases hp : parsePathSegments ep.Path with
  | ok segs =>
    unfold newRoute at hmk
    rw [hp] at hmk
    simp only [Except.map] at hmk
    cases hmk
    rfl
  | error msg =>
    unfold newRoute at hmk
    rw [hp] at hmk
    simp [Except.map] at hmk

/-- C5: reloading a source whose definition now declares a different
service name leaves exactly one active service for that source: the old
name is gone from the service map, the new name is present and mapped from
the source, and the rebuilt route index holds no route owned by the old
name. -/
theorem c5_rename_reload (g : GatewayState) (path : String) (svc : Service) (oldName : String)
    (hmap : keyFind g.fileToService path = some oldName)
    (hne : oldName ≠ svc.Name)
    (hwf : ∀ kv ∈ g.services, kv.1 = kv.2.Name) :
    keyFind (loadService g path svc).services oldName = none ∧
    keyFind (loadService g path svc).services svc.Name = some svc ∧
    keyFind (loadService g path svc).fileToService path = some svc.Name ∧
    ∀ e ∈ (loadService g path svc).routes, e.2.service.Name ≠ oldName := by
  have hsvcset :
      (loadService g path svc).services = setKey (eraseKey g.services oldName) svc.Name svc := by
    unfold loadService
    rw [hmap]
    simp [hne]
  refine ⟨?_, ?_, ?_, ?_⟩
  · rw [hsvcset, keyFind_setKey, if_neg hne, keyFind_eraseKey, if_pos rfl]
  · rw [hsvcset, keyFind_setKey, if_pos rfl]
  · have : (loadService g path svc).fileToService = setKey g.fileToService path svc.Name := rfl
    rw [this, keyFind_setKey, if_pos rfl]
  · intro e he
    have hroutes : (loadService g path svc).routes =
        rebuildRoutesLocked (setKey (eraseKey g.services oldName) svc.Name svc) := by
      unfold loadService
      rw [hmap]
      simp [hne]
    rw [hroutes] at he
    obtain ⟨kv, hkv, hsvc⟩ := mem_rebuildRoutes e _ he
    rw [hsvc]
    rcases mem_setKey svc.Name svc kv _ hkv with hkv | rfl
    · have h1 := (List.mem_filter.mp hkv).1
      have h2 := (List.mem_filter.mp hkv).2
      have h3 := hwf kv h1
      intro hcontra
      rw [← h3] at hcontra
      rw [hcontra] at h2
      simp at h2
    · exact fun hcontra => hne hcontra.symm

/-- Concrete registry state for the C5 witness: one service loaded from
`alpha.yaml` under the name `alpha`. -/
def g0 : GatewayState :=
  { services := [("alpha", svcX)]
    fileToService := [("alpha.yaml", "alpha")]
    routes := rebuildRoutesLocked [("alpha", svcX)] }

/-- The C5 witness reload: the same source now declares the name `beta`. -/
def svcY : Service :=
  { Name := "beta", Address := "http://localhost:9002", Description := "",
    Endpoints := [epX], Source := "alpha.yaml" }

/-- C5 (witness): reloading `alpha.yaml` under the new name `beta` removes
`alpha` from the service map and maps the source to `beta`. -/
theorem c5_rename_reload_witness :
    keyFind g0.fileToService "alpha.yaml" = some "alpha" ∧
    "alpha" ≠ svcY.Name ∧
    keyFind (loadService g0 "alpha.yaml" svcY).services "alpha" = none ∧
    keyFind (loadService g0 "alpha.yaml" svcY).services "beta" = some svcY ∧
    keyFind (loadService g0 "alpha.yaml" svcY).fileToService "alpha.yaml" = some "beta" :=
  have h := c5_rename_reload g0 "alpha.yaml" svcY "alpha" rfl (by decide) (by
    intro kv hkv
    rcases List.mem_singleton.mp hkv with rfl
    rfl)
  ⟨rfl, by decide, h.1, h.2.1, h.2.2.1⟩

instance {α : Type} : IsTotal (String × α) (fun a b => a.1 ≤ b.1) :=
  ⟨fun a b => le_total a.1 b.1⟩

instance {α : Type} : IsTrans (String × α) (fun a b => a.1 ≤ b.1) :=
  ⟨fun _ _ _ h₁ h₂ => le_trans h₁ h₂⟩

/-- A key-sorted list with distinct keys is strictly key-sorted. -/
theorem sortedKeys_strict {α : Type} (l : List (String × α))
    (hs : l.Pairwise (fun a b => a.1 ≤ b.1)) (hnd : (l.map Prod.fst).Nodup) :
    l.Pairwise (fun a b => a.1 < b.1) :=
  (hs.and (List.pairwise_map.mp hnd)).imp fun h => lt_of_le_of_ne h.1 h.2

/-- Two strictly key-sorted permutations of each other are equal. -/
theorem eq_of_perm_of_sortedKeys {α : Type} : ∀ {l₁ l₂ : List (String × α)},
    l₁.Perm l₂ →
    l₁.Pairwise (fun a b => a.1 < b.1) → l₂.Pairwise (fun a b => a.1 < b.1) → l₁ = l₂
  | [], l₂, h, _, _ => h.nil_eq
  | a :: t₁, [], h, _, _ => absurd h.symm.nil_eq (by simp)
  | a :: t₁, b :: t₂, h, p₁, p₂ => by
    by_cases hab : a = b
    · subst hab
      have ht := h.cons_inv
      have := eq_of_perm_of_sortedKeys ht (List.pairwise_cons.mp p₁).2 (List.pairwise_cons.mp p₂).2
      rw [this]
    · exfalso
      have ha : a ∈ b :: t₂ := h.subset (List.mem_cons_self a t₁)
      have hb : b ∈ a :: t₁ := h.symm.subset (List.mem_cons_self b t₂)
      have ha2 : a ∈ t₂ := by
        rcases List.mem_cons.mp ha with rfl | ha2
        · exact absurd rfl hab
        · exact ha2
      have hb1 : b ∈ t₁ := by
        rcases List.mem_cons.mp hb with rfl | hb1
        · exact absurd rfl (Ne.symm hab)
        · exact hb1
      have h1 : a.1 < b.1 := (List.pairwise_cons.mp p₁).1 b hb1
      have h2 : b.1 < a.1 := (List.pairwise_cons.mp p₂).1 a ha2
      exact absurd h1 (lt_asymm h2)

/-- Sorting by key is invariant under permutation when keys are distinct. -/
theorem sortByKey_perm_eq {α : Type} (l₁ l₂ : List (String × α))
    (hperm : l₁.Perm l₂) (hnd : (l₁.map Prod.fst).Nodup) :
    sortByKey l₁ = sortByKey l₂ := by
  have hnd₂ : (l₂.map Prod.fst).Nodup := ((hperm.map Prod.fst).nodup_iff).mp hnd
  have hs₁ := List.sorted_insertionSort (fun a b : String × α => a.1 ≤ b.1) l₁
  have hs₂ := List.sorted_insertionSort (fun a b : String × α => a.1 ≤ b.1) l₂
  have hp₁ := List.perm_insertionSort (fun a b : String × α => a.1 ≤ b.1) l₁
  have hp₂ := List.perm_insertionSort (fun a b : String × α => a.1 ≤ b.1) l₂
  refine eq_of_perm_of_sortedKeys (hp₁.trans (hperm.trans hp₂.symm)) ?_ ?_
  · exact sortedKeys_strict _ hs₁ (((hp₁.map Prod.fst).nodup_iff).mpr hnd)
  · exact sortedKeys_strict _ hs₂ (((hp₂.map Prod.fst).nodup_iff).mpr hnd₂)

/-- C4: building the description document is deterministic — it depends
only on the set of loaded services (the registry map's iteration order is
immaterial, services being visited in lexicographic name order), so two
builds with the same base URL against an unchanged registry return
byte-identical output. -/
theorem c4_openapi_deterministic (baseURL : String) (reg₁ reg₂ : List (String × Service))
    (hperm : reg₁.Perm reg₂) (hnd : (reg₁.map Prod.fst).Nodup) :
    BuildOpenAPISpec baseURL reg₁ = BuildOpenAPISpec baseURL reg₂ := by
  unfold BuildOpenAPISpec buildSpec
  rw [sortByKey_perm_eq reg₁ reg₂ hperm hnd, hperm.length_eq]

/-- C4 (witness): the two iteration orders of a two-service registry yield
byte-identical documents. -/
theorem c4_openapi_deterministic_witness :
    ([("alpha", svcX), ("beta", svcY)].map Prod.fst).Nodup ∧
    BuildOpenAPISpec "http://gw" [("alpha", svcX), ("beta", svcY)] =
      BuildOpenAPISpec "http://gw" [("beta", svcY), ("alpha", svcX)] :=
  ⟨by decide,
   c4_openapi_deterministic "http://gw" _ _ (List.Perm.swap _ _ _) (by decide)⟩

/-- Concrete media-type entry for the C8 witness. -/
def mdJ : MediaTypeDefinition := { Schema := some defaultSchema, Example := none }

/-- Concrete request body for the C8 witness. -/
def rbJ : RequestBody :=
  { Description := "", Required := true, Content := [("application/json", mdJ)] }

/-- Concrete endpoint with a request body for the C8 witness. -/
def epB : Endpoint :=
  { Path := "/todos", Method := "POST", Description := "", OperationID := "",
    Parameters := [], RequestBody := some rbJ }

/-- Concrete service for the C8 witness. -/
def svcB : Service :=
  { Name := "todo", Address := "http://localhost:9002", Description := "",
    Endpoints := [epB], Source := "todo.yaml" }

/-- Lookup of the operation stored in the paths structure under a path and
a lower-cased method. -/
def findOperation (paths : List (String × List (String × JsonValue)))
    (p m : String) : Option JsonValue :=
  keyFind ((keyFind paths p).getD []) m

/-- The last entry in visit order matching a path and lower-cased method:
the one whose operation occupies that document slot, later writes
overwriting earlier ones. -/
def findLastMatch (p m : String) : List (Service × Endpoint) → Option (Service × Endpoint)
  | [] => none
  | se :: rest =>
    match findLastMatch p m rest with
    | some r => some r
    | none =>
      if se.2.Path == p && toLowerStr se.2.Method == m then some se else none

/-- A matching entry guarantees `findLastMatch` finds one. -/
theorem findLastMatch_isSome (p m : String) :
    ∀ (l : List (Service × Endpoint)) (se : Service × Endpoint),
      se ∈ l → se.2.Path = p → toLowerStr se.2.Method = m →
      (findLastMatch p m l).isSome = true
  | [], se, h, _, _ => absurd h (List.not_mem_nil se)
  | x :: rest, se, h, hp, hm => by
    simp only [findLastMatch]
    cases hr : findLastMatch p m rest with
    | some r => rfl
    | none =>
      rcases List.mem_cons.mp h with rfl | hmem
      · rw [if_pos (Bool.and_eq_true_iff.mpr ⟨beq_iff_eq.mpr hp, beq_iff_eq.mpr hm⟩)]
        rfl
      · have := findLastMatch_isSome p m rest se hmem hp hm
        rw [hr] at this
        cases this

/-- What `findLastMatch` returns is a matching member. -/
theorem findLastMatch_mem (p m : String) :
    ∀ (l : List (Service × Endpoint)) (se : Service × Endpoint),
      findLastMatch p m l = some se →
      se ∈ l ∧ se.2.Path = p ∧ toLowerStr se.2.Method = m
  | [], se, h => by cases h
  | x :: rest, se, h => by
    simp only [findLastMatch] at h
    cases hr : findLastMatch p m rest with
    | some r =>
      rw [hr] at h
      injection h with h
      subst h
      obtain ⟨h1, h2⟩ := findLastMatch_mem p m rest r hr
      exact ⟨List.mem_cons_of_mem _ h1, h2⟩
    | none =>
      rw [hr] at h
      by_cases hc : (x.2.Path == p && toLowerStr x.2.Method == m) = true
      · rw [if_pos hc] at h
        injection h with h
        subst h
        obtain ⟨h1, h2⟩ := Bool.and_eq_true_iff.mp hc
        exact ⟨List.mem_cons_self _ _, beq_iff_eq.mp h1, beq_iff_eq.mp h2⟩
      · rw [if_neg hc] at h
        cases h

/-- The operation found in the folded paths structure is the one built from
the last matching entry of the visit order (`setKey` overwrites), and the
accumulator's when no entry matches. -/
theorem findOperation_foldl (p m : String) (hm : m ≠ "") :
    ∀ (entries : List (Service × Endpoint)) (acc : List (String × List (String × JsonValue))),
      findOperation (List.foldl addEndpoint acc entries) p m =
        (match findLastMatch p m entries with
         | some se => some (buildOperation se.1 se.2 m)
         | none => findOperation acc p m)
  | [], acc => rfl
  | se :: rest, acc => by
    rw [List.foldl_cons, findOperation_foldl p m hm rest (addEndpoint acc se)]
    simp only [findLastMatch]
    cases hr : findLastMatch p m rest with
    | some r => rfl
    | none =>
      by_cases hc : (se.2.Path == p && toLowerStr se.2.Method == m) = true
      · rw [if_pos hc]
        obtain ⟨h1, h2⟩ := Bool.and_eq_true_iff.mp hc
        have hp : se.2.Path = p := beq_iff_eq.mp h1
        have hmm : toLowerStr se.2.Method = m := beq_iff_eq.mp h2
        show findOperation (addEndpoint acc se) p m = some (buildOperation se.1 se.2 m)
        unfold addEndpoint findOperation
        rw [hmm, if_neg hm, hp, keyFind_setKey, if_pos rfl, Option.getD_some,
          keyFind_setKey, if_pos rfl]
      · rw [if_neg hc]
        show findOperation (addEndpoint acc se) p m = findOperation acc p m
        unfold addEndpoint findOperation
        by_cases hskip : toLowerStr se.2.Method = ""
        · rw [if_pos hskip]
        · rw [if_neg hskip]
          by_cases hpp : se.2.Path = p
          · have hmm : ¬m = toLowerStr se.2.Method := by
              intro he
              exact hc (Bool.and_eq_true_iff.mpr ⟨beq_iff_eq.mpr hpp, beq_iff_eq.mpr he.symm⟩)
            rw [hpp, keyFind_setKey, if_pos rfl, Option.getD_some, keyFind_setKey,
              if_neg hmm]
          · rw [keyFind_setKey, if_neg fun he => hpp he.symm]

/-- The media-type keys of an operation entry's request-body content
object, as read from the synthesized document. -/
def operationMediaTypes (op : JsonValue) : List String :=
  match op with
  | .obj fields =>
    match keyFind fields "requestBody" with
    | some (.obj rbFields) =>
      match keyFind rbFields "content" with
      | some (.obj contentFields) => contentFields.map Prod.fst
      | _ => []
    | _ => []
  | _ => []

/-- A media-type entry carrying a schema or an example survives
`convertRequestBody` and its key appears among the operation's
request-body content keys. -/
theorem mem_operationMediaTypes (svc : Service) (ep : Endpoint) (method : String)
    (rb : RequestBody) (hrb : ep.RequestBody = some rb)
    (mt : String) (md : MediaTypeDefinition) (hmt : (mt, md) ∈ rb.Content)
    (hsome : md.Schema ≠ none ∨ md.Example ≠ none) :
    mt ∈ operationMediaTypes (buildOperation svc ep method) := by
  obtain ⟨v, hv⟩ : ∃ v, mediaEntry (mt, md) = some (mt, v) := by
    rcases hS : md.Schema with _ | s <;> rcases hE : md.Example with _ | e
    · cases hsome with
      | inl h => exact absurd hS h
      | inr h => exact absurd hE h
    · exact ⟨.obj [("example", e)], by simp [mediaEntry, hS, hE]⟩
    · exact ⟨.obj [("schema", JsonValue.obj s)], by simp [mediaEntry, hS, hE]⟩
    · exact ⟨.obj [("schema", JsonValue.obj s), ("example", e)],
        by simp [mediaEntry, hS, hE]⟩
  have hmemc : (mt, v) ∈ rb.Content.filterMap mediaEntry :=
    List.mem_filterMap.mpr ⟨(mt, md), hmt, hv⟩
  have hne : (rb.Content.filterMap mediaEntry).isEmpty = false := by
    cases hfm : rb.Content.filterMap mediaEntry with
    | nil => rw [hfm] at hmemc; cases hmemc
    | cons a as => rfl
  have hconv : convertRequestBody ep.RequestBody =
      some (.obj ([("content", JsonValue.obj (rb.Content.filterMap mediaEntry))]
        ++ (if rb.Description ≠ "" then [("description", JsonValue.str rb.Description)] else [])
        ++ (if rb.Required then [("required", JsonValue.bool true)] else []))) := by
    rw [hrb]
    simp [convertRequestBody, hne]
  unfold buildOperation
  rw [hconv]
  cases hps : ep.Parameters.isEmpty
  · exact List.mem_map.mpr ⟨(mt, v), hmemc, rfl⟩
  · exact List.mem_map.mpr ⟨(mt, v), hmemc, rfl⟩

/-- Media-type entry with neither schema nor example, for the C8
counterexample. -/
def mdEmpty : MediaTypeDefinition := { Schema := none, Example := none }

/-- Request body whose only media type carries neither schema nor example. -/
def rbEmpty : RequestBody :=
  { Description := "", Required := false, Content := [("text/plain", mdEmpty)] }

/-- Endpoint declaring `rbEmpty`, for the C8 counterexample. -/
def epC8 : Endpoint :=
  { Path := "/notes", Method := "POST", Description := "", OperationID := "",
    Parameters := [], RequestBody := some rbEmpty }

/-- Service wrapping `epC8`, for the C8 counterexample. -/
def svcC8 : Service :=
  { Name := "notes", Address := "http://localhost:9003", Description := "",
    Endpoints := [epC8], Source := "notes.yaml" }

/-- C8 (counterexample): validation accepts `svcC8` and keeps its
`text/plain` media type (the content map is non-empty), yet the
synthesizer's `convertRequestBody` skips the entry — it has neither schema
nor example — and, every entry being skipped, omits the request body from
the operation altogether, so the declared media type is not carried through
verbatim into the document. -/
theorem c8_counterexample :
    normalizeAndValidate svcC8 = .ok svcC8 ∧
    rbEmpty.Content.map Prod.fst = ["text/plain"] ∧
    convertRequestBody epC8.RequestBody = none ∧
    operationMediaTypes (buildOperation svcC8 epC8 (toLowerStr epC8.Method)) = [] :=
  ⟨rfl, rfl, rfl, rfl⟩

/-- C8 (amended): for every loaded service and endpoint with a request-body
spec, the synthesized document stores that endpoint's operation under its
path and lower-cased method (provided the method is non-empty and no other
visited endpoint claims the same slot), and every media-type key of the
spec's content map whose definition carries a schema or an example appears
verbatim among the operation's request-body content keys; entries with
neither are dropped. -/
theorem c8_media_types_carried (reg : List (String × Service)) (name : String) (svc : Service)
    (ep : Endpoint) (rb : RequestBody) (mt : String) (md : MediaTypeDefinition)
    (hsvc : (name, svc) ∈ reg) (hep : ep ∈ svc.Endpoints)
    (hrb : ep.RequestBody = some rb) (hmt : (mt, md) ∈ rb.Content)
    (hsome : md.Schema ≠ none ∨ md.Example ≠ none)
    (hmethod : toLowerStr ep.Method ≠ "")
    (huniq : ∀ se ∈ endpointSeq ((sortByKey reg).map Prod.snd),
      se.2.Path = ep.Path → toLowerStr se.2.Method = toLowerStr ep.Method →
      se = (svc, ep)) :
    findOperation (buildPaths ((sortByKey reg).map Prod.snd)) ep.Path (toLowerStr ep.Method) =
      some (buildOperation svc ep (toLowerStr ep.Method)) ∧
    mt ∈ operationMediaTypes (buildOperation svc ep (toLowerStr ep.Method)) := by
  constructor
  · have h1 : (name, svc) ∈ sortByKey reg :=
      ((List.perm_insertionSort (fun a b : String × Service => a.1 ≤ b.1) reg).mem_iff).mpr hsvc
    have h2 : svc ∈ (sortByKey reg).map Prod.snd := List.mem_map_of_mem Prod.snd h1
    have hmem : (svc, ep) ∈ endpointSeq ((sortByKey reg).map Prod.snd) :=
      List.mem_flatMap.mpr ⟨svc, h2, List.mem_map_of_mem _ hep⟩
    have hsm := findLastMatch_isSome ep.Path (toLowerStr ep.Method) _ (svc, ep) hmem rfl rfl
    obtain ⟨se, hse⟩ := Option.isSome_iff_exists.mp hsm
    obtain ⟨hmem', hp', hm'⟩ := findLastMatch_mem ep.Path (toLowerStr ep.Method) _ se hse
    have hseq : se = (svc, ep) := huniq se hmem' hp' hm'
    subst hseq
    unfold buildPaths
    rw [findOperation_foldl ep.Path (toLowerStr ep.Method) hmethod (endpointSeq _) [], hse]
  · exact mem_operationMediaTypes svc ep (toLowerStr ep.Method) rb hrb mt md hmt hsome

/-- C8 (witness): in the one-service registry of `svcB`, the todo
endpoint's operation sits in the document under `/todos` and `post`, and
the declared `application/json` media type appears among its request-body
content keys. -/
theorem c8_media_types_carried_witness :
    findOperation (buildPaths ((sortByKey [("todo", svcB)]).map Prod.snd)) epB.Path
        (toLowerStr epB.Method) = some (buildOperation svcB epB (toLowerStr epB.Method)) ∧
    "application/json" ∈ operationMediaTypes (buildOperation svcB epB (toLowerStr epB.Method)) :=
  c8_media_types_carried [("todo", svcB)] "todo" svcB epB rbJ "application/json" mdJ
    (List.Mem.head _) (List.Mem.head _) rfl (List.Mem.head _)
    (Or.inl fun h => Option.noConfusion h) (by decide)
    (fun se hse _ _ => by
      have h : se ∈ [(svcB, epB)] := hse
      cases h with
      | head => rfl
      | tail _ h2 => cases h2)

/-- Success test for `Except`. -/
def exceptOk {epsilon alpha : Type} : Except epsilon alpha → Bool
  | .ok _ => true
  | .error _ => false

/-- The data of a one-character prepend. -/
theorem data_slash_append (s : String) : ("/" ++ s).data = '/' :: s.data := by
  rcases s with ⟨l⟩
  rfl

/-- Prepending the separator yields a non-empty string. -/
theorem withSlash_ne_empty (s : String) (h : s ≠ "") : withSlash s ≠ "" := by
  unfold withSlash
  by_cases hs : startsWithChar '/' s = true
  · simp [hs, h]
  · simp only [hs, Bool.false_eq_true, if_neg, not_false_eq_true]
    intro hcontra
    have := congrArg String.data hcontra
    rw [data_slash_append] at this
    cases this

/-- Prepending the separator yields a string starting with it. -/
theorem startsWithChar_withSlash (s : String) : startsWithChar '/' (withSlash s) = true := by
  unfold withSlash
  by_cases hs : startsWithChar '/' s = true
  · simp [hs]
  · simp only [hs, Bool.false_eq_true, if_neg, not_false_eq_true]
    unfold startsWithChar
    rw [data_slash_append]
    rfl

/-- Upper-casing preserves emptiness. -/
theorem toUpperStr_eq_empty_iff (s : String) : toUpperStr s = "" ↔ s = "" := by
  unfold toUpperStr
  rcases s with ⟨l⟩
  constructor
  · intro h
    have : l.map Char.toUpper = [] := congrArg String.data h
    rw [List.map_eq_nil_iff] at this
    rw [this]
  · intro h
    have : l = [] := by
      have := congrArg String.data h
      simpa using this
    rw [this]
    rfl

/-- The loop succeeds exactly when every element does. -/
theorem mapMExcept_isOk {alpha beta : Type} (f : alpha → Except String beta) :
    ∀ (l : List alpha), exceptOk (mapMExcept f l) = l.all (fun x => exceptOk (f x))
  | [] => rfl
  | x :: xs => by
    have ih := mapMExcept_isOk f xs
    cases hf : f x with
    | error e =>
      have hstep : mapMExcept f (x :: xs) = .error e := by
        simp [mapMExcept, hf, Bind.bind, Except.bind]
      rw [hstep, List.all_cons]
      simp [exceptOk, hf]
    | ok y =>
      cases hrest : mapMExcept f xs with
      | error e =>
        have hstep : mapMExcept f (x :: xs) = .error e := by
          simp [mapMExcept, hf, hrest, Bind.bind, Except.bind, Functor.map, Except.map]
        rw [hrest] at ih
        rw [hstep, List.all_cons, ← ih]
        simp [exceptOk, hf]
      | ok ys =>
        have hstep : mapMExcept f (x :: xs) = .ok (y :: ys) := by
          simp [mapMExcept, hf, hrest, Bind.bind, Except.bind, Functor.map, Except.map,
            Pure.pure, Except.pure]
        rw [hrest] at ih
        rw [hstep, List.all_cons, ← ih]
        simp [exceptOk, hf]

/-- Success values of the loop, elementwise. -/
theorem mapMExcept_ok_forall₂ {alpha beta : Type} (f : alpha → Except String beta) :
    ∀ (l : List alpha) (l' : List beta), mapMExcept f l = .ok l' →
      List.Forall₂ (fun x y => f x = .ok y) l l'
  | [], l', h => by
    cases h
    exact List.Forall₂.nil
  | x :: xs, l', h => by
    cases hf : f x with
    | error e =>
      simp [mapMExcept, hf, Bind.bind, Except.bind] at h
    | ok y =>
      cases hrest : mapMExcept f xs with
      | error e =>
        simp [mapMExcept, hf, hrest, Bind.bind, Except.bind, Functor.map, Except.map] at h
      | ok ys =>
        simp only [mapMExcept, hf, hrest, Bind.bind, Except.bind, Functor.map, Except.map,
          Pure.pure, Except.pure, Except.ok.injEq] at h
        rw [← h]
        exact List.Forall₂.cons hf (mapMExcept_ok_forall₂ f xs ys hrest)

/-- Claim C7's per-segment failure condition: an empty segment, or braces
that do not form a well-placed placeholder with a non-blank name. -/
def segmentBad (part : String) : Bool :=
  decide (part = "") ||
  ((containsChar '{' part || containsChar '}' part) &&
    !(startsWithChar '{' part && endsWithChar '}' part &&
      !decide (trimSpace (dropEnds part) = "")))

/-- Claim C7's per-template failure condition over the split segments. -/
def pathTemplateBad (path : String) : Bool :=
  if trimSlashes path = "" then false
  else (splitOnSlash (trimSlashes path)).any segmentBad

/-- Claim C7's per-endpoint failure condition: empty (trimmed) path or
method, a parameter with an empty (trimmed) name, or a bad path template
(checked on the normalized path). -/
def endpointBad (ep : Endpoint) : Bool :=
  decide (trimSpace ep.Path = "") ||
  decide (trimSpace ep.Method = "") ||
  ep.Parameters.any (fun p => decide (trimSpace p.Name = "")) ||
  pathTemplateBad (withSlash (trimSpace ep.Path))

/-- Claim C7's failure condition for a parsed definition. -/
def serviceBad (s : Service) : Bool :=
  decide (trimSpace s.Name = "") ||
  decide (trimSpace s.Address = "") ||
  s.Endpoints.isEmpty ||
  s.Endpoints.any endpointBad

/-- One segment parses exactly when it is not bad. -/
theorem parseSegment_isOk (path part : String) :
    exceptOk (parseSegment path part) = !segmentBad part := by
  unfold parseSegment segmentBad
  by_cases h1 : part = ""
  · simp [h1, exceptOk]
  · by_cases h2 : (containsChar '{' part || containsChar '}' part) = true
    · by_cases h3 : (startsWithChar '{' part && endsWithChar '}' part) = true
      · by_cases h4 : trimSpace (dropEnds part) = ""
        · simp [h1, h2, h3, h4, exceptOk]
        · simp [h1, h2, h3, h4, exceptOk]
      · simp [h1, h2, h3, exceptOk]
    · simp [h1, h2, exceptOk]

/-- A non-empty template starting with the separator parses exactly when
claim C7's template condition does not flag it. -/
theorem parsePathSegments_isOk (path : String) (hne : path ≠ "")
    (hsw : startsWithChar '/' path = true) :
    exceptOk (parsePathSegments path) = !pathTemplateBad path := by
  unfold parsePathSegments pathTemplateBad
  by_cases ht : trimSlashes path = ""
  · simp [hne, hsw, ht, exceptOk]
  · simp only [hne, hsw, ht, if_neg, Bool.not_true, Bool.false_eq_true, not_false_eq_true,
      if_false, Bool.true_eq_false]
    rw [mapMExcept_isOk]
    rw [show (fun x => exceptOk (parseSegment path x)) = (fun x => !segmentBad x) from
      funext fun x => parseSegment_isOk path x]
    cases hall : (splitOnSlash (trimSlashes path)).any segmentBad
    · simp only [Bool.not_false, List.all_eq_true, Bool.not_eq_true']
      intro x hx
      exact Bool.not_eq_true _ ▸ ((List.any_eq_false.mp hall) x hx)
    · obtain ⟨x, hx, hbad⟩ := List.any_eq_true.mp hall
      simp only [Bool.not_true]
      rw [List.all_eq_false]
      exact ⟨x, hx, by simp [hbad]⟩

/-- Mapping the success value does not change success. -/
theorem exceptOk_map {alpha beta : Type} (f : alpha → beta) (x : Except String alpha) :
    exceptOk (Except.map f x) = exceptOk x := by
  cases x <;> rfl

/-- One parameter normalizes exactly when its trimmed name is non-empty. -/
theorem normalizeParam_isOk (expected : List String) (method path : String) (p : Parameter) :
    exceptOk (normalizeParam expected method path p) = !decide (trimSpace p.Name = "") := by
  unfold normalizeParam
  by_cases h : trimSpace p.Name = "" <;> simp [h, exceptOk]

/-- A normalized parameter that resolved to the path location is required,
whatever the author declared. -/
theorem normalizeParamOk_required (expected : List String) (p : Parameter)
    (h : (normalizeParamOk expected p).In = "path") :
    (normalizeParamOk expected p).Required = true := by
  have hIn : (normalizeParamOk expected p).In = resolveIn expected (trimSpace p.Name) p.In := rfl
  have hReq : (normalizeParamOk expected p).Required =
      if resolveIn expected (trimSpace p.Name) p.In = "path" then true else p.Required := rfl
  rw [hIn] at h
  rw [hReq, if_pos h]

/-- Every parameter produced by the synthesis loop is required and
path-located; declared parameters are carried through `normalizeParamOk`. -/
theorem mem_synthesizeMissing (paramsInPath : List String) (params : List Parameter)
    (p : Parameter) (h : p ∈ synthesizeMissing paramsInPath params) :
    p ∈ params ∨ (p.In = "path" ∧ p.Required = true) := by
  unfold synthesizeMissing at h
  rcases List.mem_append.mp h with h | h
  · exact Or.inl h
  · rw [List.mem_filterMap] at h
    obtain ⟨n, _, hn⟩ := h
    by_cases hc : params.any (fun q => q.In == "path" && q.Name == n) = true
    · simp [synthParamFor, hc] at hn
    · simp only [synthParamFor, hc, Bool.false_eq_true, if_neg, not_false_eq_true,
        Option.some.injEq] at hn
      rw [← hn]
      exact Or.inr ⟨rfl, rfl⟩

/-- Inversion of a successful per-endpoint normalization: the placeholder
names, the normalized parameters, and the exact shape of the output. -/
theorem normalizeEndpoint_ok_inv (i : Nat) (ep ep' : Endpoint)
    (h : normalizeEndpoint i ep = .ok ep') :
    ∃ names params,
      extractPathParamNames (withSlash (trimSpace ep.Path)) = .ok names ∧
      mapMExcept (normalizeParam names (toUpperStr (trimSpace ep.Method))
        (withSlash (trimSpace ep.Path))) ep.Parameters = .ok params ∧
      ep' = { Path := withSlash (trimSpace ep.Path)
              Method := toUpperStr (trimSpace ep.Method)
              Description := trimSpace ep.Description
              OperationID := trimSpace ep.OperationID
              Parameters := synthesizeMissing names params
              RequestBody := normalizeRequestBody ep.RequestBody } := by
  unfold normalizeEndpoint at h
  by_cases h1 : trimSpace ep.Path = ""
  · simp [h1, throw, throwThe, MonadExceptOf.throw, Bind.bind, Except.bind] at h
  · by_cases h2 : toUpperStr (trimSpace ep.Method) = ""
    · simp [h1, h2, throw, throwThe, MonadExceptOf.throw, Bind.bind, Except.bind,
        Pure.pure, Except.pure] at h
    · cases hx : extractPathParamNames (withSlash (trimSpace ep.Path)) with
      | error e =>
        simp [h1, h2, hx, throw, throwThe, MonadExceptOf.throw, Bind.bind, Except.bind,
          Pure.pure, Except.pure, Functor.map, Except.map] at h
      | ok names =>
        cases hm : mapMExcept (normalizeParam names (toUpperStr (trimSpace ep.Method))
            (withSlash (trimSpace ep.Path))) ep.Parameters with
        | error e =>
          simp [h1, h2, hx, hm, throw, throwThe, MonadExceptOf.throw, Bind.bind, Except.bind,
            Pure.pure, Except.pure, Functor.map, Except.map] at h
        | ok params =>
          simp only [h1, h2, hx, hm, if_neg, not_false_eq_true, Bind.bind, Except.bind,
            Pure.pure, Except.pure, Functor.map, Except.map, Except.ok.injEq] at h
          exact ⟨names, params, rfl, hm, h.symm⟩

/-- De Morgan for Bool list scans. -/
theorem all_not_eq_not_any {alpha : Type} (p : alpha → Bool) : ∀ (l : List alpha),
    l.all (fun x => !p x) = !(l.any p)
  | [] => rfl
  | x :: xs => by
    rw [List.all_cons, List.any_cons, all_not_eq_not_any p xs, Bool.not_or]

/-- One endpoint normalizes exactly when none of claim C7's endpoint-level
conditions flags it. -/
theorem normalizeEndpoint_isOk (i : Nat) (ep : Endpoint) :
    exceptOk (normalizeEndpoint i ep) = !endpointBad ep := by
  unfold normalizeEndpoint endpointBad
  by_cases h1 : trimSpace ep.Path = ""
  · simp [h1, throw, throwThe, MonadExceptOf.throw, Bind.bind, Except.bind, exceptOk]
  · by_cases h2 : toUpperStr (trimSpace ep.Method) = ""
    · have h2' : trimSpace ep.Method = "" := (toUpperStr_eq_empty_iff _).mp h2
      simp [h1, h2', show toUpperStr "" = "" from rfl, throw, throwThe, MonadExceptOf.throw,
        Bind.bind, Except.bind, Pure.pure, Except.pure, exceptOk]
    · have h2' : ¬trimSpace ep.Method = "" := fun hc => h2 ((toUpperStr_eq_empty_iff _).mpr hc)
      have hparse := parsePathSegments_isOk (withSlash (trimSpace ep.Path))
        (withSlash_ne_empty _ h1) (startsWithChar_withSlash _)
      cases hx : extractPathParamNames (withSlash (trimSpace ep.Path)) with
      | error e =>
        have hex : exceptOk (extractPathParamNames (withSlash (trimSpace ep.Path))) = false := by
          rw [hx]; rfl
        rw [extractPathParamNames, exceptOk_map, hparse] at hex
        have hbad : pathTemplateBad (withSlash (trimSpace ep.Path)) = true := by
          simpa using hex
        simp [h1, h2, h2', hx, hbad, throw, throwThe, MonadExceptOf.throw, Bind.bind,
          Except.bind, Pure.pure, Except.pure, Functor.map, Except.map, exceptOk]
      | ok names =>
        have hex : exceptOk (extractPathParamNames (withSlash (trimSpace ep.Path))) = true := by
          rw [hx]; rfl
        rw [extractPathParamNames, exceptOk_map, hparse] at hex
        have hgood : pathTemplateBad (withSlash (trimSpace ep.Path)) = false := by
          simpa using hex
        have hAll : exceptOk (mapMExcept (normalizeParam names (toUpperStr (trimSpace ep.Method))
            (withSlash (trimSpace ep.Path))) ep.Parameters) =
            !(ep.Parameters.any fun p => decide (trimSpace p.Name = "")) := by
          rw [mapMExcept_isOk]
          rw [show (fun p => exceptOk (normalizeParam names (toUpperStr (trimSpace ep.Method))
              (withSlash (trimSpace ep.Path)) p)) =
            (fun p => !decide (trimSpace p.Name = "")) from funext fun p =>
              normalizeParam_isOk _ _ _ p]
          exact all_not_eq_not_any _ ep.Parameters
        cases hm : mapMExcept (normalizeParam names (toUpperStr (trimSpace ep.Method))
            (withSlash (trimSpace ep.Path))) ep.Parameters with
        | error e =>
          rw [hm] at hAll
          cases hA : ep.Parameters.any (fun p => decide (trimSpace p.Name = "")) with
          | false =>
            rw [hA] at hAll
            simp [exceptOk] at hAll
          | true =>
            simp [h1, h2, hx, hm, hA, hgood, throw, throwThe, MonadExceptOf.throw, Bind.bind,
              Except.bind, Pure.pure, Except.pure, exceptOk]
        | ok params =>
          rw [hm] at hAll
          cases hA : ep.Parameters.any (fun p => decide (trimSpace p.Name = "")) with
          | true =>
            rw [hA] at hAll
            simp [exceptOk] at hAll
          | false =>
            simp [h1, h2, h2', hx, hm, hA, hgood, throw, throwThe, MonadExceptOf.throw,
              Bind.bind, Except.bind, Pure.pure, Except.pure, exceptOk]

/-- The endpoint loop succeeds exactly when no endpoint is flagged. -/
theorem normalizeEndpoints_isOk : ∀ (i : Nat) (eps : List Endpoint),
    exceptOk (normalizeEndpoints i eps) = !eps.any endpointBad
  | _, [] => rfl
  | i, ep :: eps => by
    have ih := normalizeEndpoints_isOk (i + 1) eps
    have hone := normalizeEndpoint_isOk i ep
    cases h1 : normalizeEndpoint i ep with
    | error e =>
      rw [h1] at hone
      have hbad : endpointBad ep = true := by
        cases hb : endpointBad ep
        · rw [hb] at hone; simp [exceptOk] at hone
        · rfl
      simp [normalizeEndpoints, h1, hbad, Bind.bind, Except.bind, exceptOk]
    | ok ep' =>
      rw [h1] at hone
      have hgood : endpointBad ep = false := by
        cases hb : endpointBad ep
        · rfl
        · rw [hb] at hone; simp [exceptOk] at hone
      cases h2 : normalizeEndpoints (i + 1) eps with
      | error e =>
        rw [h2] at ih
        have hrest : eps.any endpointBad = true := by
          cases hb : eps.any endpointBad
          · rw [hb] at ih; simp [exceptOk] at ih
          · rfl
        simp [normalizeEndpoints, h1, h2, hgood, hrest, Bind.bind, Except.bind,
          Pure.pure, Except.pure, exceptOk]
      | ok eps' =>
        rw [h2] at ih
        have hrest : eps.any endpointBad = false := by
          cases hb : eps.any endpointBad
          · rfl
          · rw [hb] at ih; simp [exceptOk] at ih
        simp [normalizeEndpoints, h1, h2, hgood, hrest, Bind.bind, Except.bind,
          Pure.pure, Except.pure, exceptOk]

/-- Success values of the endpoint loop, elementwise (the per-endpoint
index is abstracted). -/
theorem normalizeEndpoints_ok_forall₂ : ∀ (i : Nat) (eps : List Endpoint) (eps' : List Endpoint),
    normalizeEndpoints i eps = .ok eps' →
    List.Forall₂ (fun ep ep' => ∃ j, normalizeEndpoint j ep = .ok ep') eps eps'
  | _, [], eps', h => by
    cases h
    exact List.Forall₂.nil
  | i, ep :: eps, eps', h => by
    cases h1 : normalizeEndpoint i ep with
    | error e =>
      simp [normalizeEndpoints, h1, Bind.bind, Except.bind] at h
    | ok ep' =>
      cases h2 : normalizeEndpoints (i + 1) eps with
      | error e =>
        simp [normalizeEndpoints, h1, h2, Bind.bind, Except.bind, Pure.pure, Except.pure] at h
      | ok eps'' =>
        simp only [normalizeEndpoints, h1, h2, Bind.bind, Except.bind, Pure.pure, Except.pure,
          Except.ok.injEq] at h
        rw [← h]
        exact List.Forall₂.cons ⟨i, h1⟩ (normalizeEndpoints_ok_forall₂ (i + 1) eps eps'' h2)

/-- The validator succeeds exactly when no service-level condition flags
the parsed definition. -/
theorem normalizeAndValidate_isOk (s : Service) :
    exceptOk (normalizeAndValidate s) = !serviceBad s := by
  unfold normalizeAndValidate serviceBad
  by_cases n1 : trimSpace s.Name = ""
  · simp [n1, throw, throwThe, MonadExceptOf.throw, Bind.bind, Except.bind, exceptOk]
  · by_cases n2 : trimSpace s.Address = ""
    · simp [n1, n2, throw, throwThe, MonadExceptOf.throw, Bind.bind, Except.bind,
        Pure.pure, Except.pure, exceptOk]
    · by_cases n3 : s.Endpoints.isEmpty = true
      · simp [n1, n2, n3, throw, throwThe, MonadExceptOf.throw, Bind.bind, Except.bind,
          Pure.pure, Except.pure, exceptOk]
      · have heps := normalizeEndpoints_isOk 0 s.Endpoints
        cases h4 : normalizeEndpoints 0 s.Endpoints with
        | error e =>
          rw [h4] at heps
          have hany : s.Endpoints.any endpointBad = true := by
            cases hb : s.Endpoints.any endpointBad
            · rw [hb] at heps; simp [exceptOk] at heps
            · rfl
          simp [n1, n2, n3, h4, hany, throw, throwThe, MonadExceptOf.throw, Bind.bind,
            Except.bind, Pure.pure, Except.pure, exceptOk]
        | ok eps' =>
          rw [h4] at heps
          have hany : s.Endpoints.any endpointBad = false := by
            cases hb : s.Endpoints.any endpointBad
            · rfl
            · rw [hb] at heps; simp [exceptOk] at heps
          simp [n1, n2, n3, h4, hany, throw, throwThe, MonadExceptOf.throw, Bind.bind,
            Except.bind, Pure.pure, Except.pure, exceptOk]

/-- Inversion of a successful validation: the normalized service fields. -/
theorem normalizeAndValidate_ok_inv (s s' : Service) (h : normalizeAndValidate s = .ok s') :
    s'.Name = trimSpace s.Name ∧
    s'.Address = trimTrailingSlashes (trimSpace s.Address) ∧
    s'.Description = trimSpace s.Description ∧
    s'.Source = s.Source ∧
    normalizeEndpoints 0 s.Endpoints = .ok s'.Endpoints := by
  unfold normalizeAndValidate at h
  by_cases n1 : trimSpace s.Name = ""
  · simp [n1, throw, throwThe, MonadExceptOf.throw, Bind.bind, Except.bind] at h
  · by_cases n2 : trimSpace s.Address = ""
    · simp [n1, n2, throw, throwThe, MonadExceptOf.throw, Bind.bind, Except.bind,
        Pure.pure, Except.pure] at h
    · by_cases n3 : s.Endpoints.isEmpty = true
      · simp [n1, n2, n3, throw, throwThe, MonadExceptOf.throw, Bind.bind, Except.bind,
          Pure.pure, Except.pure] at h
      · cases h4 : normalizeEndpoints 0 s.Endpoints with
        | error e =>
          simp [n1, n2, n3, h4, throw, throwThe, MonadExceptOf.throw, Bind.bind, Except.bind,
            Pure.pure, Except.pure] at h
        | ok eps' =>
          simp only [n1, n2, n3, h4, if_neg, not_false_eq_true, Bool.false_eq_true, if_false,
            Bind.bind, Except.bind, Pure.pure, Except.pure, Except.ok.injEq] at h
          rw [← h]
          exact ⟨rfl, rfl, rfl, rfl, rfl⟩

/-- Claim C7's success-side normalization facts for one endpoint. -/
def EndpointNorm (ep ep' : Endpoint) : Prop :=
  ep'.Path = withSlash (trimSpace ep.Path) ∧
  ep'.Method = toUpperStr (trimSpace ep.Method) ∧
  ep'.Description = trimSpace ep.Description ∧
  ep'.OperationID = trimSpace ep.OperationID ∧
  ep'.RequestBody = normalizeRequestBody ep.RequestBody

/-- A successful per-endpoint normalization satisfies `EndpointNorm`. -/
theorem normalizeEndpoint_ok_norm (i : Nat) (ep ep' : Endpoint)
    (h : normalizeEndpoint i ep = .ok ep') : EndpointNorm ep ep' := by
  obtain ⟨names, params, -, -, heq⟩ := normalizeEndpoint_ok_inv i ep ep' h
  rw [heq]
  exact ⟨rfl, rfl, rfl, rfl, rfl⟩

/-- C7: the validator accepts a parsed definition exactly when none of the
claim's conditions holds — empty (trimmed) name or address, no endpoints,
an endpoint with an empty path or method, a parameter with an empty name,
or a path template with an empty segment or malformed placeholder braces;
the three service-level errors carry the message naming the missing field
(the endpoint-level messages embed the offending endpoint and field in the
same way); and on success the returned service is normalized: name,
address and descriptions trimmed, trailing separator stripped from the
address, methods upper-cased, a leading separator enforced on every
endpoint path, and a request body with no media types dropped. -/
theorem c7_validation_conditions (s : Service) :
    (exceptOk (normalizeAndValidate s) = !serviceBad s) ∧
    (trimSpace s.Name = "" → normalizeAndValidate s = .error "serviceName is required") ∧
    (trimSpace s.Name ≠ "" → trimSpace s.Address = "" →
      normalizeAndValidate s = .error "serviceAddress is required") ∧
    (trimSpace s.Name ≠ "" → trimSpace s.Address ≠ "" → s.Endpoints = [] →
      normalizeAndValidate s = .error "service must define at least one endpoint") ∧
    (∀ s', normalizeAndValidate s = .ok s' →
      s'.Name = trimSpace s.Name ∧
      s'.Address = trimTrailingSlashes (trimSpace s.Address) ∧
      s'.Description = trimSpace s.Description ∧
      List.Forall₂ EndpointNorm s.Endpoints s'.Endpoints) := by
  refine ⟨normalizeAndValidate_isOk s, ?_, ?_, ?_, ?_⟩
  · intro h1
    unfold normalizeAndValidate
    simp [h1, throw, throwThe, MonadExceptOf.throw, Bind.bind, Except.bind]
  · intro h1 h2
    unfold normalizeAndValidate
    simp [h1, h2, throw, throwThe, MonadExceptOf.throw, Bind.bind, Except.bind,
      Pure.pure, Except.pure]
  · intro h1 h2 h3
    unfold normalizeAndValidate
    simp [h1, h2, h3, throw, throwThe, MonadExceptOf.throw, Bind.bind, Except.bind,
      Pure.pure, Except.pure]
  · intro s' h
    obtain ⟨hn, ha, hd, -, heps⟩ := normalizeAndValidate_ok_inv s s' h
    refine ⟨hn, ha, hd, ?_⟩
    have hf := normalizeEndpoints_ok_forall₂ 0 s.Endpoints s'.Endpoints heps
    exact hf.imp fun a b hj => by
      obtain ⟨j, hj⟩ := hj
      exact normalizeEndpoint_ok_norm j a b hj

/-- Concrete invalid definition (blank name) for the C7 witness. -/
def svcBadName : Service :=
  { Name := "  ", Address := "http://localhost:9001", Description := "",
    Endpoints := [epX], Source := "bad.yaml" }

/-- Concrete valid but unnormalized definition for the C7 witness: no
leading separator, lower-case method, request body with no media types. -/
def svcRaw : Service :=
  { Name := " weather ", Address := "http://localhost:9001/", Description := " d ",
    Endpoints := [{ Path := "weather/\x7bcity\x7d", Method := "get", Description := "",
                    OperationID := "", Parameters := [],
                    RequestBody := some { Description := "", Required := false, Content := [] } }],
    Source := "w.yaml" }

/-- C7 (witness): the blank-name definition is rejected with the message
naming the field, and the unnormalized definition is accepted. -/
theorem c7_validation_conditions_witness :
    (trimSpace svcBadName.Name = "" ∧
      normalizeAndValidate svcBadName = .error "serviceName is required") ∧
    (serviceBad svcRaw = false ∧ exceptOk (normalizeAndValidate svcRaw) = true) :=
  ⟨⟨rfl, (c7_validation_conditions svcBadName).2.1 rfl⟩,
   ⟨rfl, (c7_validation_conditions svcRaw).1.trans (by decide)⟩⟩

/-- Right-membership inversion for an elementwise relation. -/
theorem forall₂_mem_right {alpha beta : Type} {R : alpha → beta → Prop} :
    ∀ {l₁ : List alpha} {l₂ : List beta}, List.Forall₂ R l₁ l₂ →
      ∀ b ∈ l₂, ∃ a ∈ l₁, R a b
  | _, _, List.Forall₂.nil, b, hb => absurd hb (by simp)
  | _, _, List.Forall₂.cons h hrest, b, hb => by
    rcases List.mem_cons.mp hb with rfl | hb
    · exact ⟨_, List.mem_cons_self _ _, h⟩
    · obtain ⟨a, ha, hr⟩ := forall₂_mem_right hrest b hb
      exact ⟨a, List.mem_cons.mpr (Or.inr ha), hr⟩

/-- A successful parameter normalization yields `normalizeParamOk`. -/
theorem normalizeParam_ok_eq (expected : List String) (method path : String)
    (p q : Parameter) (h : normalizeParam expected method path p = .ok q) :
    q = normalizeParamOk expected p := by
  unfold normalizeParam at h
  by_cases hname : trimSpace p.Name = ""
  · simp [hname] at h
  · simp only [hname, if_neg, not_false_eq_true, Except.ok.injEq] at h
    exact h.symm

/-- C9: in every accepted service, every parameter whose location resolved
to `path` is required, even when the source declared `required: false`, and
also when its name is no placeholder of the template. -/
theorem c9_path_location_forces_required (s s' : Service)
    (h : normalizeAndValidate s = .ok s') :
    ∀ ep' ∈ s'.Endpoints, ∀ p ∈ ep'.Parameters, p.In = "path" → p.Required = true := by
  intro ep' hep' p hp hpath
  obtain ⟨-, -, -, -, heps⟩ := normalizeAndValidate_ok_inv s s' h
  obtain ⟨ep, -, j, hj⟩ :=
    forall₂_mem_right (normalizeEndpoints_ok_forall₂ 0 s.Endpoints s'.Endpoints heps) ep' hep'
  obtain ⟨names, params, -, hm, heq⟩ := normalizeEndpoint_ok_inv j ep ep' hj
  rw [heq] at hp
  rcases mem_synthesizeMissing names params p hp with hdecl | ⟨-, hreq⟩
  · obtain ⟨p₀, -, hok⟩ := forall₂_mem_right (mapMExcept_ok_forall₂ _ ep.Parameters params hm) p hdecl
    have := normalizeParam_ok_eq names _ _ p₀ p hok
    rw [this] at hpath ⊢
    exact normalizeParamOk_required names p₀ hpath
  · exact hreq

/-- Concrete definition for the C9 witness: a parameter declared
`required: false` with location ` PATH ` whose name is no placeholder. -/
def svcC9 : Service :=
  { Name := "svc", Address := "http://a", Description := "",
    Endpoints := [{ Path := "/items", Method := "GET", Description := "",
                    OperationID := "",
                    Parameters := [{ Name := "k", In := " PATH ", Required := false,
                                     Description := "", Schema := none }],
                    RequestBody := none }],
    Source := "" }

/-- The validated form of `svcC9`. -/
def svcC9out : Service :=
  { Name := "svc", Address := "http://a", Description := "",
    Endpoints := [{ Path := "/items", Method := "GET", Description := "",
                    OperationID := "",
                    Parameters := [{ Name := "k", In := "path", Required := true,
                                     Description := "", Schema := some defaultSchema }],
                    RequestBody := none }],
    Source := "" }

/-- C9 (witness): the declared `required: false`, location ` PATH `
parameter of `svcC9` is forced to required by validation. -/
theorem c9_path_location_forces_required_witness :
    normalizeAndValidate svcC9 = .ok svcC9out ∧
    ({ Name := "k", In := "path", Required := true, Description := "",
       Schema := some defaultSchema : Parameter }).Required = true :=
  ⟨rfl,
   c9_path_location_forces_required svcC9 svcC9out rfl _ (List.Mem.head _) _
     (List.Mem.head _) rfl⟩

/-- A list whose every element maps to `some` keeps its length under
`filterMap`: nothing is skipped. -/
theorem length_filterMap_of_all_some {alpha beta : Type} (f : alpha → Option beta) :
    ∀ (l : List alpha), (∀ x ∈ l, (f x).isSome = true) →
      (l.filterMap f).length = l.length
  | [], _ => rfl
  | x :: xs, h => by
    cases hx : f x with
    | none =>
      have := h x (List.mem_cons_self x xs)
      rw [hx] at this
      cases this
    | some y =>
      rw [List.filterMap_cons_some hx, List.length_cons, List.length_cons,
        length_filterMap_of_all_some f xs (fun z hz => h z (List.mem_cons.mpr (Or.inr hz)))]

/-- C10: compiling any endpoint of an accepted service into a route
succeeds, so `rebuildRoutesLocked`'s endpoint-skipping branch is
unreachable for validated services — rebuilding routes for such a service
drops no endpoint. -/
theorem c10_validated_endpoints_compile (s s' : Service)
    (h : normalizeAndValidate s = .ok s') :
    (∀ ep ∈ s'.Endpoints, exceptOk (newRoute s' ep) = true) ∧
    (rebuildRoutesLocked [(s'.Name, s')]).length = s'.Endpoints.length := by
  have hall : ∀ ep ∈ s'.Endpoints, exceptOk (newRoute s' ep) = true := by
    intro ep hep
    obtain ⟨-, -, -, -, heps⟩ := normalizeAndValidate_ok_inv s s' h
    obtain ⟨ep₀, -, j, hj⟩ :=
      forall₂_mem_right (normalizeEndpoints_ok_forall₂ 0 s.Endpoints s'.Endpoints heps) ep hep
    obtain ⟨names, params, hx, -, heq⟩ := normalizeEndpoint_ok_inv j ep₀ ep hj
    have hpath : ep.Path = withSlash (trimSpace ep₀.Path) := by rw [heq]
    rw [← hpath] at hx
    unfold newRoute
    rw [exceptOk_map]
    unfold extractPathParamNames at hx
    cases hp : parsePathSegments ep.Path with
    | ok segs => rfl
    | error e => rw [hp] at hx; cases hx
  refine ⟨hall, ?_⟩
  unfold rebuildRoutesLocked
  rw [List.flatMap_cons, List.flatMap_nil, List.append_nil]
  have : ∀ ep ∈ s'.Endpoints,
      ((match newRoute s' ep with
        | .ok rt => some (toUpperStr ep.Method, rt)
        | .error _ => none) : Option (String × route)).isSome = true := by
    intro ep hep
    have := hall ep hep
    cases hr : newRoute s' ep with
    | ok rt => rfl
    | error e => rw [hr] at this; cases this
  exact length_filterMap_of_all_some _ s'.Endpoints this

/-- The validated form of `svcRaw`'s endpoint. -/
def epWOut : Endpoint :=
  { Path := "/weather/\x7bcity\x7d", Method := "GET", Description := "",
    OperationID := "",
    Parameters := [{ Name := "city", In := "path", Required := true,
                     Description := "", Schema := some defaultSchema }],
    RequestBody := none }

/-- The validated form of `svcRaw`. -/
def svcRawOut : Service :=
  { Name := "weather", Address := "http://localhost:9001", Description := "d",
    Endpoints := [epWOut], Source := "w.yaml" }

/-- C10 (witness): the validated weather definition compiles every endpoint
into a route, and rebuilding its route index drops nothing. -/
theorem c10_validated_endpoints_compile_witness :
    normalizeAndValidate svcRaw = .ok svcRawOut ∧
    (rebuildRoutesLocked [(svcRawOut.Name, svcRawOut)]).length = svcRawOut.Endpoints.length :=
  ⟨rfl, (c10_validated_endpoints_compile svcRaw svcRawOut rfl).2⟩

/-- The path-located, required parameters of an endpoint carrying a given
name (the count claim C2 speaks about). -/
def countPathParams (ps : List Parameter) (n : String) : Nat :=
  (ps.filter fun p => p.Name == n && p.In == "path" && p.Required).length

/-- Claim C2 as stated, as a decidable check over one service: after a
successful load, every placeholder of every endpoint path has exactly one
path-located required parameter with its name. -/
def c2ClaimHolds (s : Service) : Bool :=
  match normalizeAndValidate s with
  | .error _ => true
  | .ok s' => s'.Endpoints.all fun ep =>
      match extractPathParamNames ep.Path with
      | .ok names => names.all fun n => countPathParams ep.Parameters n == 1
      | .error _ => true

/-- Concrete definition refuting C2 as stated: the author declares the
`city` parameter twice, both resolving to the path location. -/
def svcC2 : Service :=
  { Name := "w", Address := "http://a", Description := "",
    Endpoints := [{ Path := "/weather/\x7bcity\x7d", Method := "GET", Description := "",
                    OperationID := "",
                    Parameters := [{ Name := "city", In := "path", Required := false,
                                     Description := "", Schema := none },
                                   { Name := "city", In := "", Required := false,
                                     Description := "", Schema := none }],
                    RequestBody := none }],
    Source := "" }

/-- C2 (counterexample): `svcC2` is accepted by the validator, yet its
`city` placeholder ends up with two path-located required parameters, not
exactly one. -/
theorem c2_counterexample :
    exceptOk (normalizeAndValidate svcC2) = true ∧ c2ClaimHolds svcC2 = false :=
  ⟨rfl, rfl⟩

/-- Membership in the first-occurrence deduplication. -/
theorem mem_dedupKeys (n : String) : ∀ (l seen : List String),
    n ∈ dedupKeys seen l ↔ (n ∈ l ∧ n ∉ seen)
  | [], seen => by simp [dedupKeys]
  | x :: xs, seen => by
    by_cases hx : seen.contains x = true
    · rw [dedupKeys, if_pos hx, mem_dedupKeys n xs seen]
      have hxseen : x ∈ seen := List.elem_iff.mp hx
      constructor
      · rintro ⟨h1, h2⟩
        exact ⟨List.mem_cons.mpr (Or.inr h1), h2⟩
      · rintro ⟨h1, h2⟩
        rcases List.mem_cons.mp h1 with rfl | h1
        · exact absurd hxseen h2
        · exact ⟨h1, h2⟩
    · rw [dedupKeys, if_neg hx]
      constructor
      · intro h
        rcases List.mem_cons.mp h with rfl | h
        · exact ⟨List.mem_cons_self _ _, fun hc => hx (List.elem_iff.mpr hc)⟩
        · have := (mem_dedupKeys n xs (x :: seen)).mp h
          exact ⟨List.mem_cons.mpr (Or.inr this.1),
            fun hc => this.2 (List.mem_cons.mpr (Or.inr hc))⟩
      · rintro ⟨h1, h2⟩
        rcases List.mem_cons.mp h1 with rfl | h1
        · exact List.mem_cons_self _ _
        · by_cases hnx : n = x
          · subst hnx
            exact List.mem_cons_self _ _
          · exact List.mem_cons.mpr (Or.inr ((mem_dedupKeys n xs (x :: seen)).mpr
              ⟨h1, fun hc => by
                rcases List.mem_cons.mp hc with h | h
                · exact hnx h
                · exact h2 h⟩))

/-- The deduplicated keys are distinct. -/
theorem nodup_dedupKeys : ∀ (l seen : List String), (dedupKeys seen l).Nodup
  | [], _ => List.nodup_nil
  | x :: xs, seen => by
    by_cases hx : seen.contains x = true
    · rw [dedupKeys, if_pos hx]
      exact nodup_dedupKeys xs seen
    · rw [dedupKeys, if_neg hx]
      refine List.Nodup.cons ?_ (nodup_dedupKeys xs (x :: seen))
      intro hc
      exact ((mem_dedupKeys x xs (x :: seen)).mp hc).2 (List.mem_cons_self _ _)

/-- Head expansion of the parameter count. -/
theorem countPathParams_cons (p : Parameter) (ps : List Parameter) (n : String) :
    countPathParams (p :: ps) n =
      (if (p.Name == n && p.In == "path" && p.Required) = true then 1 else 0)
        + countPathParams ps n := by
  unfold countPathParams
  rw [List.filter_cons]
  by_cases h : (p.Name == n && p.In == "path" && p.Required) = true
  · simp [h, Nat.add_comm]
  · simp [h]

/-- The count distributes over concatenation. -/
theorem countPathParams_append (ps qs : List Parameter) (n : String) :
    countPathParams (ps ++ qs) n = countPathParams ps n + countPathParams qs n := by
  unfold countPathParams
  rw [List.filter_append, List.length_append]

/-- A name that is no placeholder gets nothing synthesized. -/
theorem count_synth_zero (params : List Parameter) (n : String) :
    ∀ (l : List String), n ∉ l →
      countPathParams (l.filterMap (synthParamFor params)) n = 0
  | [], _ => rfl
  | m :: l, h => by
    have hmn : m ≠ n := fun e => h (e ▸ List.mem_cons_self m l)
    have hrest := count_synth_zero params n l (fun hc => h (List.mem_cons.mpr (Or.inr hc)))
    by_cases hc : (params.any fun p => p.In == "path" && p.Name == m) = true
    · rw [List.filterMap_cons_none (by simp [synthParamFor, hc])]
      exact hrest
    · rw [List.filterMap_cons_some
        (by simp [synthParamFor, hc] : synthParamFor params m = some { Name := m, In := "path", Required := true, Description := "", Schema := some defaultSchema })]
      rw [countPathParams_cons]
      rw [if_neg (by simp [hmn]), Nat.zero_add]
      exact hrest

/-- Over distinct placeholder keys, a listed name gets exactly one
synthesized parameter when uncovered, none when covered. -/
theorem count_synth (params : List Parameter) (n : String) :
    ∀ (l : List String), l.Nodup → n ∈ l →
      countPathParams (l.filterMap (synthParamFor params)) n =
        if (params.any fun p => p.In == "path" && p.Name == n) = true then 0 else 1
  | [], _, hn => absurd hn (by simp)
  | m :: l, hnd, hn => by
    have hnd' := (List.nodup_cons.mp hnd).2
    have hmem := (List.nodup_cons.mp hnd).1
    by_cases hmn : m = n
    · subst hmn
      by_cases hc : (params.any fun p => p.In == "path" && p.Name == m) = true
      · rw [List.filterMap_cons_none (by simp [synthParamFor, hc])]
        rw [count_synth_zero params m l hmem, if_pos hc]
      · rw [List.filterMap_cons_some
          (by simp [synthParamFor, hc] : synthParamFor params m = some { Name := m, In := "path", Required := true, Description := "", Schema := some defaultSchema })]
        rw [countPathParams_cons]
        rw [if_pos (by simp)]
        rw [count_synth_zero params m l hmem, if_neg hc]
    · have hnl : n ∈ l := by
        rcases List.mem_cons.mp hn with rfl | hh
        · exact absurd rfl hmn
        · exact hh
      by_cases hc : (params.any fun p => p.In == "path" && p.Name == m) = true
      · rw [List.filterMap_cons_none (by simp [synthParamFor, hc])]
        exact count_synth params n l hnd' hnl
      · rw [List.filterMap_cons_some
          (by simp [synthParamFor, hc] : synthParamFor params m = some { Name := m, In := "path", Required := true, Description := "", Schema := some defaultSchema })]
        rw [countPathParams_cons]
        rw [if_neg (by simp [hmn])]
        rw [count_synth params n l hnd' hnl, Nat.zero_add]

/-- When path-located members are all required, the required flag drops out
of the count. -/
theorem countPathParams_eq_of_required (ps : List Parameter) (n : String)
    (h : ∀ p ∈ ps, p.In = "path" → p.Required = true) :
    countPathParams ps n = (ps.filter fun p => p.Name == n && p.In == "path").length := by
  unfold countPathParams
  rw [List.filter_congr]
  intro p hp
  by_cases hin : p.In = "path"
  · rw [h p hp hin]
    simp
  · simp [hin]

/-- Coverage is positivity of the uncounted filter. -/
theorem any_iff_pos (ps : List Parameter) (n : String) :
    (ps.any fun p => p.In == "path" && p.Name == n) = true ↔
      0 < (ps.filter fun p => p.Name == n && p.In == "path").length := by
  rw [List.any_eq_true]
  constructor
  · rintro ⟨p, hp, hpred⟩
    refine List.length_pos_of_mem (List.mem_filter.mpr ⟨hp, ?_⟩)
    rw [Bool.and_eq_true] at hpred ⊢
    exact ⟨hpred.2, hpred.1⟩
  · intro hpos
    obtain ⟨p, hp⟩ := List.exists_mem_of_length_pos hpos
    refine ⟨p, (List.mem_filter.mp hp).1, ?_⟩
    have := (List.mem_filter.mp hp).2
    rw [Bool.and_eq_true] at this ⊢
    exact ⟨this.2, this.1⟩

/-- A filter whose predicate pins the trimmed name keeps at most one
element of a list with distinct trimmed names. -/
theorem filter_le_one_of_nodup_key (n : String) (q : Parameter → Bool)
    (hq : ∀ p, q p = true → trimSpace p.Name = n) :
    ∀ (ps : List Parameter), ((ps.map fun p => trimSpace p.Name).Nodup) →
      (ps.filter q).length ≤ 1
  | [], _ => by simp
  | p :: ps, hnd => by
    rw [List.map_cons, List.nodup_cons] at hnd
    rcases hnd with ⟨hmem, hnd⟩
    rw [List.filter_cons]
    by_cases hp : q p = true
    · rw [if_pos hp]
      have hzero : ps.filter q = [] := by
        rw [List.filter_eq_nil_iff]
        intro x hx hqx
        have h1 : trimSpace x.Name = n := hq x hqx
        have h2 : trimSpace p.Name = n := hq p hp
        exact hmem (h2.trans h1.symm ▸ List.mem_map_of_mem (fun p => trimSpace p.Name) hx)
      rw [hzero]
      simp
    · rw [if_neg hp]
      exact filter_le_one_of_nodup_key n q hq ps hnd

/-- Elementwise image of a successful parameter loop. -/
theorem mapM_normalizeParam_eq_map (expected : List String) (method path : String) :
    ∀ (ps : List Parameter) (qs : List Parameter),
      mapMExcept (normalizeParam expected method path) ps = .ok qs →
      qs = ps.map (normalizeParamOk expected)
  | [], qs, h => by cases h; rfl
  | p :: ps, qs, h => by
    cases hf : normalizeParam expected method path p with
    | error e => simp [mapMExcept, hf, Bind.bind, Except.bind] at h
    | ok q =>
      cases hrest : mapMExcept (normalizeParam expected method path) ps with
      | error e =>
        simp [mapMExcept, hf, hrest, Bind.bind, Except.bind, Functor.map, Except.map] at h
      | ok qs' =>
        simp only [mapMExcept, hf, hrest, Bind.bind, Except.bind, Functor.map, Except.map,
          Pure.pure, Except.pure, Except.ok.injEq] at h
        rw [← h, List.map_cons, normalizeParam_ok_eq expected method path p q hf,
          mapM_normalizeParam_eq_map expected method path ps qs' hrest]

/-- C2 (amended): in every accepted service, every named placeholder of an
endpoint's path template has at least one corresponding parameter with
location `path` and required `true` (synthesized with the default string
schema when the author omitted it), and exactly one provided that same
endpoint's author-declared parameters carry pairwise-distinct trimmed
names (the endpoint is pinned by its position `i` in the definition). -/
theorem c2_placeholder_param_counts (s s' : Service) (hv : normalizeAndValidate s = .ok s')
    (i : Nat) (hi : i < s'.Endpoints.length) (hs : i < s.Endpoints.length)
    (names : List String)
    (hnames : extractPathParamNames (s'.Endpoints.get ⟨i, hi⟩).Path = .ok names)
    (n : String) (hn : n ∈ names) :
    1 ≤ countPathParams (s'.Endpoints.get ⟨i, hi⟩).Parameters n ∧
    (((s.Endpoints.get ⟨i, hs⟩).Parameters.map fun p => trimSpace p.Name).Nodup →
      countPathParams (s'.Endpoints.get ⟨i, hi⟩).Parameters n = 1) := by
  obtain ⟨-, -, -, -, heps⟩ := normalizeAndValidate_ok_inv s s' hv
  obtain ⟨j, hj⟩ := (normalizeEndpoints_ok_forall₂ 0 s.Endpoints s'.Endpoints heps).get hs hi
  set ep := s.Endpoints.get ⟨i, hs⟩
  set ep' := s'.Endpoints.get ⟨i, hi⟩
  obtain ⟨names₀, params, hx, hm, heq⟩ := normalizeEndpoint_ok_inv j ep ep' hj
  have hpath : ep'.Path = withSlash (trimSpace ep.Path) := by rw [heq]
  rw [hpath, hx] at hnames
  injection hnames with hnn
  subst hnn
  have hparams : params = ep.Parameters.map (normalizeParamOk names₀) :=
    mapM_normalizeParam_eq_map _ _ _ _ _ hm
  have hepparams : ep'.Parameters = synthesizeMissing names₀ params := by rw [heq]
  have hreq : ∀ p ∈ params, p.In = "path" → p.Required = true := by
    intro p hp hin
    rw [hparams] at hp
    obtain ⟨p₀, -, rfl⟩ := List.mem_map.mp hp
    exact normalizeParamOk_required _ _ hin
  rw [hepparams]
  unfold synthesizeMissing
  rw [countPathParams_append]
  rw [count_synth params n (dedupKeys [] names₀) (nodup_dedupKeys names₀ [])
    ((mem_dedupKeys n names₀ []).mpr ⟨hn, by simp⟩)]
  rw [countPathParams_eq_of_required params n hreq]
  by_cases hcov : (params.any fun p => p.In == "path" && p.Name == n) = true
  · rw [if_pos hcov]
    have hpos : 0 < (params.filter fun p => p.Name == n && p.In == "path").length :=
      (any_iff_pos params n).mp hcov
    refine ⟨by omega, ?_⟩
    intro hnodup
    have hq : ∀ p : Parameter,
        ((fun p => p.Name == n && p.In == "path") ∘ normalizeParamOk names₀) p = true →
        trimSpace p.Name = n := by
      intro p hp
      simp only [Function.comp] at hp
      rw [Bool.and_eq_true] at hp
      have hname : (normalizeParamOk names₀ p).Name = trimSpace p.Name := rfl
      have := hp.1
      rw [hname] at this
      exact eq_of_beq this
    have hle : (params.filter fun p => p.Name == n && p.In == "path").length ≤ 1 := by
      rw [hparams, List.filter_map, List.length_map]
      exact filter_le_one_of_nodup_key n _ hq ep.Parameters hnodup
    omega
  · rw [if_neg hcov]
    have hzero : (params.filter fun p => p.Name == n && p.In == "path").length = 0 := by
      by_contra hne
      exact hcov ((any_iff_pos params n).mpr (Nat.pos_of_ne_zero hne))
    exact ⟨by omega, fun _ => by omega⟩

/-- C2 (witness): the validated weather endpoint (position 0) declares
distinct trimmed parameter names, and its `city` placeholder has exactly
one required path parameter (the synthesized one). -/
theorem c2_placeholder_param_counts_witness :
    normalizeAndValidate svcRaw = .ok svcRawOut ∧
    extractPathParamNames epWOut.Path = .ok ["city"] ∧
    ((svcRaw.Endpoints.get ⟨0, by decide⟩).Parameters.map fun p => trimSpace p.Name).Nodup ∧
    countPathParams epWOut.Parameters "city" = 1 :=
  ⟨rfl, rfl, by decide,
   (c2_placeholder_param_counts svcRaw svcRawOut rfl 0 (by decide) (by decide) ["city"] rfl
      "city" (List.Mem.head _)).2 (by decide)⟩
